import Mathlib

/-!
Verification of the GitHub→Telegram webhook relay (`GIT-WEBHOOK.py`).

The development shallowly embeds the Python source:
* byte strings are `List Nat` (each entry a byte value),
* Python `str` values are `List Char` (sequences of Unicode code points,
  matching Python's length/indexing semantics),
* dynamically-typed JSON payloads are the inductive `PyVal`, and attribute
  errors / type errors raised by dynamic access are modelled with `Except`.

`hashlib.sha256` and `hmac` are embedded as executable FIPS-180-4 /
RFC-2104 definitions over byte lists.
-/

namespace GitWebhook

set_option maxHeartbeats 1000000

/-- Truncate to a 32-bit word, as CPython's C sha256 implementation does. -/
def w32 (n : Nat) : Nat := n % 4294967296

/-- 32-bit right rotation. -/
def rotr32 (x n : Nat) : Nat := w32 ((x >>> n) ||| (x <<< (32 - n)))

/-- 32-bit bitwise complement. -/
def compl32 (x : Nat) : Nat := x ^^^ 4294967295

/-- SHA-256 `Ch` function. -/
def sha256Ch (x y z : Nat) : Nat := (x &&& y) ^^^ (compl32 x &&& z)

/-- SHA-256 `Maj` function. -/
def sha256Maj (x y z : Nat) : Nat := (x &&& y) ^^^ (x &&& z) ^^^ (y &&& z)

/-- SHA-256 big sigma-0. -/
def bSig0 (x : Nat) : Nat := rotr32 x 2 ^^^ rotr32 x 13 ^^^ rotr32 x 22

/-- SHA-256 big sigma-1. -/
def bSig1 (x : Nat) : Nat := rotr32 x 6 ^^^ rotr32 x 11 ^^^ rotr32 x 25

/-- SHA-256 small sigma-0. -/
def sSig0 (x : Nat) : Nat := rotr32 x 7 ^^^ rotr32 x 18 ^^^ (x >>> 3)

/-- SHA-256 small sigma-1. -/
def sSig1 (x : Nat) : Nat := rotr32 x 17 ^^^ rotr32 x 19 ^^^ (x >>> 10)

/-- The 64 SHA-256 round constants (FIPS 180-4 §4.2.2, written in decimal). -/
def sha256K : List Nat :=
  [1116352408, 1899447441, 3049323471, 3921009573, 961987163,
   1508970993, 2453635748, 2870763221, 3624381080, 310598401,
   607225278, 1426881987, 1925078388, 2162078206, 2614888103,
   3248222580, 3835390401, 4022224774, 264347078, 604807628,
   770255983, 1249150122, 1555081692, 1996064986, 2554220882,
   2821834349, 2952996808, 3210313671, 3336571891, 3584528711,
   113926993, 338241895, 666307205, 773529912, 1294757372,
   1396182291, 1695183700, 1986661051, 2177026350, 2456956037,
   2730485921, 2820302411, 3259730800, 3345764771, 3516065817,
   3600352804, 4094571909, 275423344, 430227734, 506948616,
   659060556, 883997877, 958139571, 1322822218, 1537002063,
   1747873779, 1955562222, 2024104815, 2227730452, 2361852424,
   2428436474, 2756734187, 3204031479, 3329325298]

/-- The SHA-256 initial hash value (FIPS 180-4 §5.3.3, written in decimal). -/
def sha256Init : List Nat :=
  [1779033703, 3144134277, 1013904242, 2773480762,
   1359893119, 2600822924, 528734635, 1541459225]

/-- Extend a 16-word block: append `n` further schedule words. -/
def sha256Extend : Nat → List Nat → List Nat
  | 0, w => w
  | n + 1, w =>
      let i := w.length
      let x := w32 (sSig1 (w.getD (i - 2) 0) + w.getD (i - 7) 0 +
                    sSig0 (w.getD (i - 15) 0) + w.getD (i - 16) 0)
      sha256Extend n (w ++ [x])

/-- One SHA-256 round on the eight-word working state. -/
def sha256Round (st : List Nat) (kw : Nat × Nat) : List Nat :=
  match st with
  | [a, b, c, d, e, f, g, h] =>
      let t1 := w32 (h + bSig1 e + sha256Ch e f g + kw.1 + kw.2)
      let t2 := w32 (bSig0 a + sha256Maj a b c)
      [w32 (t1 + t2), a, b, c, w32 (d + t1), e, f, g]
  | other => other

/-- Compress one 16-word message block into the running hash value. -/
def sha256Compress (h : List Nat) (block : List Nat) : List Nat :=
  let w := sha256Extend 48 block
  let st := (sha256K.zip w).foldl sha256Round h
  (h.zip st).map fun p => w32 (p.1 + p.2)

/-- Big-endian bytes of a 32-bit word. -/
def wordBytes (x : Nat) : List Nat :=
  [x >>> 24 % 256, x >>> 16 % 256, x >>> 8 % 256, x % 256]

/-- Big-endian bytes of the 64-bit message length field. -/
def lenBytes64 (x : Nat) : List Nat :=
  [x >>> 56 % 256, x >>> 48 % 256, x >>> 40 % 256, x >>> 32 % 256,
   x >>> 24 % 256, x >>> 16 % 256, x >>> 8 % 256, x % 256]

/-- SHA-256 padding: a `0x80` byte, zeros, then the bit length. -/
def sha256Pad (msg : List Nat) : List Nat :=
  let l := msg.length
  msg ++ [0x80] ++ List.replicate ((119 - l % 64) % 64) 0 ++ lenBytes64 (l * 8)

/-- Group bytes into big-endian 32-bit words (input length a multiple of 4). -/
def bytesToWords : List Nat → List Nat
  | b0 :: b1 :: b2 :: b3 :: rest =>
      (b0 <<< 24 ||| b1 <<< 16 ||| b2 <<< 8 ||| b3) :: bytesToWords rest
  | _ => []

/-- Split a word list into 16-word blocks (padded input is always a
multiple of 16 words). -/
def chunk16 : List Nat → List (List Nat)
  | [] => []
  | w0 :: w1 :: w2 :: w3 :: w4 :: w5 :: w6 :: w7 ::
    w8 :: w9 :: w10 :: w11 :: w12 :: w13 :: w14 :: w15 :: rest =>
      [w0, w1, w2, w3, w4, w5, w6, w7, w8, w9, w10, w11, w12, w13, w14, w15] ::
        chunk16 rest
  | other => [other]

/-- SHA-256 digest (32 bytes) of a byte string. -/
def sha256Bytes (msg : List Nat) : List Nat :=
  let blocks := chunk16 (bytesToWords (sha256Pad msg))
  let h := blocks.foldl sha256Compress sha256Init
  (h.map wordBytes).flatten

/-- Two-character lower-case hex rendering of a byte.  `Nat.digitChar`
maps 0–15 to the lower-case hex digit characters 0–9, a–f. -/
def byteToHex (b : Nat) : List Char :=
  [Nat.digitChar (b / 16 % 16), Nat.digitChar (b % 16)]

/-- `hexdigest()` of a byte string. -/
def hexdigest (bytes : List Nat) : List Char := (bytes.map byteToHex).flatten

/-- UTF-8 encoding of one code point (`str.encode('utf-8')`). -/
def utf8EncodeChar (c : Char) : List Nat :=
  let n := c.toNat
  if n < 0x80 then [n]
  else if n < 0x800 then
    [0xC0 ||| (n >>> 6), 0x80 ||| (n &&& 0x3F)]
  else if n < 0x10000 then
    [0xE0 ||| (n >>> 12), 0x80 ||| ((n >>> 6) &&& 0x3F), 0x80 ||| (n &&& 0x3F)]
  else
    [0xF0 ||| (n >>> 18), 0x80 ||| ((n >>> 12) &&& 0x3F),
     0x80 ||| ((n >>> 6) &&& 0x3F), 0x80 ||| (n &&& 0x3F)]

/-- UTF-8 encoding of a string. -/
def utf8Encode (s : List Char) : List Nat := (s.map utf8EncodeChar).flatten

/-- RFC-2104 HMAC-SHA256 (`hmac.new(key, msg, hashlib.sha256)`),
block size 64 bytes. -/
def hmacSha256 (key msg : List Nat) : List Nat :=
  let k0 := if key.length > 64 then sha256Bytes key else key
  let kp := k0 ++ List.replicate (64 - k0.length) 0
  let inner := sha256Bytes ((kp.map fun b => b ^^^ 0x36) ++ msg)
  sha256Bytes ((kp.map fun b => b ^^^ 0x5c) ++ inner)

/-- The signature the server recomputes:
`"sha256=" + hmac.new(secret.encode('utf-8'), body, sha256).hexdigest()`. -/
def expected_signature (secret : List Char) (body : List Nat) : List Char :=
  "sha256=".toList ++ hexdigest (hmacSha256 (utf8Encode secret) body)

/-- `verify_github_signature(payload_body, signature_header)`, with the
module-level `GITHUB_WEBHOOK_SECRET` made an explicit argument.  `none`
models an unset env var / absent header; Python's `not x` is true for both
`None` and the empty string.  `hmac.compare_digest` on two strings decides
string equality (its `TypeError` on a non-ASCII argument is caught by the
source's `except` and returns `False`, which coincides with inequality,
since the expected signature is ASCII). -/
def verify_github_signature (secret : Option (List Char)) (body : List Nat)
    (signature_header : Option (List Char)) : Bool :=
  if secret.getD [] = [] ∨ signature_header.getD [] = [] then
    true
  else
    expected_signature (secret.getD []) body == signature_header.getD []

/-!  ## Python `str.replace`

`s.replace(pat, rep)` scans left to right, replacing every non-overlapping
occurrence of `pat`.  The embedding below is the direct recursive
transcription for a non-empty pattern (every call in the source uses a
non-empty literal pattern; an empty pattern takes the copying branch).
-/

/-- Worker for `pyReplace`, structurally recursive on a fuel argument so
the kernel can evaluate it; `fuel ≥ s.length` makes it exact. -/
def pyReplaceF : Nat → List Char → List Char → List Char → List Char
  | 0, s, _, _ => s
  | fuel + 1, s, pat, rep =>
      if pat ≠ [] ∧ pat.isPrefixOf s then
        rep ++ pyReplaceF fuel (s.drop pat.length) pat rep
      else
        match s with
        | [] => []
        | a :: t => a :: pyReplaceF fuel t pat rep

/-- `s.replace(pat, rep)` for non-empty `pat`. -/
def pyReplace (s pat rep : List Char) : List Char :=
  pyReplaceF s.length s pat rep

/-- The branch condition of `pyReplaceF` cannot hold on `[]`. -/
theorem not_match_nil (pat : List Char) :
    ¬ (pat ≠ [] ∧ pat.isPrefixOf ([] : List Char)) := by
  rintro ⟨h1, h2⟩
  exact h1 (List.prefix_nil.mp (List.isPrefixOf_iff_prefix.mp h2))

/-- Any fuel at least `s.length` computes the same result. -/
theorem pyReplaceF_invariant (fuel : Nat) :
    ∀ (fuel' : Nat) (s pat rep : List Char), s.length ≤ fuel → s.length ≤ fuel' →
      pyReplaceF fuel s pat rep = pyReplaceF fuel' s pat rep := by
  induction fuel with
  | zero =>
      intro fuel' s pat rep h h'
      have hs : s = [] := List.eq_nil_of_length_eq_zero (Nat.le_zero.mp h)
      subst hs
      cases fuel' with
      | zero => rfl
      | succ f =>
          simp only [pyReplaceF]
          rw [if_neg (not_match_nil pat)]
  | succ f ih =>
      intro fuel' s pat rep h h'
      cases fuel' with
      | zero =>
          have hs : s = [] := List.eq_nil_of_length_eq_zero (Nat.le_zero.mp h')
          subst hs
          simp only [pyReplaceF]
          rw [if_neg (not_match_nil pat)]
      | succ f' =>
          simp only [pyReplaceF]
          by_cases hc : pat ≠ [] ∧ pat.isPrefixOf s
          · rw [if_pos hc, if_pos hc]
            have hple : pat.length ≤ s.length :=
              (List.isPrefixOf_iff_prefix.mp hc.2).length_le
            have hpos : 0 < pat.length := List.length_pos.mpr hc.1
            have hd : (s.drop pat.length).length ≤ f := by
              rw [List.length_drop]
              omega
            have hd' : (s.drop pat.length).length ≤ f' := by
              rw [List.length_drop]
              omega
            rw [ih f' _ pat rep hd hd']
          · rw [if_neg hc, if_neg hc]
            cases s with
            | nil => rfl
            | cons a t =>
                have ht : t.length ≤ f := by
                  simp only [List.length_cons] at h
                  omega
                have ht' : t.length ≤ f' := by
                  simp only [List.length_cons] at h'
                  omega
                show a :: pyReplaceF f t pat rep = a :: pyReplaceF f' t pat rep
                rw [ih f' t pat rep ht ht']

/-- Unfolding lemma: the pattern matches at the head. -/
theorem pyReplace_pos (s pat rep : List Char) (h1 : pat ≠ []) (h2 : pat <+: s) :
    pyReplace s pat rep = rep ++ pyReplace (s.drop pat.length) pat rep := by
  have hple : pat.length ≤ s.length := h2.length_le
  have hpos : 0 < pat.length := List.length_pos.mpr h1
  obtain ⟨k, hk⟩ : ∃ k, s.length = k + 1 := ⟨s.length - 1, by omega⟩
  unfold pyReplace
  rw [hk]
  simp only [pyReplaceF]
  rw [if_pos ⟨h1, List.isPrefixOf_iff_prefix.mpr h2⟩]
  congr 1
  apply pyReplaceF_invariant
  · rw [List.length_drop]
    omega
  · exact Nat.le_refl _

/-- Unfolding lemma: the empty string. -/
theorem pyReplace_nil (pat rep : List Char) : pyReplace [] pat rep = [] := rfl

/-- Unfolding lemma: the copying branch, under the exact branch condition. -/
theorem pyReplace_cons (a : Char) (t pat rep : List Char)
    (h : ¬ (pat ≠ [] ∧ pat <+: a :: t)) :
    pyReplace (a :: t) pat rep = a :: pyReplace t pat rep := by
  have h' : ¬ (pat ≠ [] ∧ pat.isPrefixOf (a :: t)) := by
    rintro ⟨h1, h2⟩
    exact h ⟨h1, List.isPrefixOf_iff_prefix.mp h2⟩
  unfold pyReplace
  rw [List.length_cons]
  simp only [pyReplaceF]
  rw [if_neg h']

/-- Unfolding lemma: no match at the head, one character is copied. -/
theorem pyReplace_neg (a : Char) (t pat rep : List Char)
    (h : ¬ pat <+: a :: t) :
    pyReplace (a :: t) pat rep = a :: pyReplace t pat rep :=
  pyReplace_cons a t pat rep fun hc => h hc.2

/-- An empty pattern never matches in this model: the string is returned
unchanged. -/
theorem pyReplace_nil_pat (s rep : List Char) : pyReplace s [] rep = s := by
  induction s with
  | nil => exact pyReplace_nil _ _
  | cons a t ih => rw [pyReplace_cons a t [] rep (by simp), ih]

/-- If the pattern occurs nowhere in `s`, `replace` leaves `s` unchanged. -/
theorem pyReplace_of_not_infix (s pat rep : List Char) (h : ¬ pat <:+: s) :
    pyReplace s pat rep = s := by
  induction s with
  | nil => exact pyReplace_nil _ _
  | cons a t ih =>
      rw [pyReplace_neg a t pat rep fun hp => h hp.isInfix,
          ih fun hi => h (List.infix_cons hi)]

/-- A prefix of the output of `replace` that avoids the first character of
the replacement pulls back to a prefix of the input. -/
theorem pyReplace_pull_back (pat rep : List Char) (r0 : Char)
    (hr : rep.head? = some r0) (s p : List Char) (hp : r0 ∉ p)
    (h : p <+: pyReplace s pat rep) : p <+: s := by
  obtain ⟨rep', rfl⟩ : ∃ rep', rep = r0 :: rep' := by
    cases rep with
    | nil => simp at hr
    | cons x xs => exact ⟨xs, by simpa using congrArg (fun o => o.elim (r0 :: xs) (· :: xs)) hr⟩
  by_cases hm : pat ≠ [] ∧ pat <+: s
  · rw [pyReplace_pos s pat _ hm.1 hm.2] at h
    cases p with
    | nil => exact List.nil_prefix
    | cons p0 ps =>
        rw [List.cons_append, List.cons_prefix_cons] at h
        obtain ⟨rfl, -⟩ := h
        exact absurd (List.mem_cons_self _ _) hp
  · cases s with
    | nil =>
        rw [pyReplace_nil] at h
        rw [List.prefix_nil.mp h]
    | cons a t =>
        rw [pyReplace_cons a t pat _ hm] at h
        cases p with
        | nil => exact List.nil_prefix
        | cons p0 ps =>
            rw [List.cons_prefix_cons] at h
            have hps : ps <+: t :=
              pyReplace_pull_back pat (r0 :: rep') r0 rfl t ps
                (fun hmem => hp (List.mem_cons_of_mem p0 hmem)) h.2
            exact List.cons_prefix_cons.mpr ⟨h.1, hps⟩
termination_by s.length

/-- An infix of a concatenation lies in the left part, lies in the right
part, or straddles the boundary. -/
theorem infix_append_cases {α : Type} {l a b : List α} (h : l <:+: a ++ b) :
    l <:+: a ∨ l <:+: b ∨
      ∃ p q, l = p ++ q ∧ p ≠ [] ∧ q ≠ [] ∧ p <:+ a ∧ q <+: b := by
  induction a with
  | nil =>
      simp only [List.nil_append] at h
      exact Or.inr (Or.inl h)
  | cons x a' ih =>
      rw [List.cons_append] at h
      rcases List.infix_cons_iff.mp h with hpre | hinf
      · rw [← List.cons_append] at hpre
        by_cases hlen : l.length ≤ (x :: a').length
        · left
          have hup : l <+: x :: a' := by
            rw [List.prefix_iff_eq_take]
            have h1 := List.prefix_iff_eq_take.mp hpre
            rwa [List.take_append_eq_append_take,
                 Nat.sub_eq_zero_of_le hlen, List.take_zero,
                 List.append_nil] at h1
          exact hup.isInfix
        · obtain ⟨r, hr⟩ := hpre
          have htk : (x :: a').length ≤ l.length := Nat.le_of_not_le hlen
          have hu : l.take (x :: a').length = x :: a' := by
            have h2 : (l ++ r).take (x :: a').length = x :: a' := by
              rw [hr, List.take_left]
            rwa [List.take_append_eq_append_take,
                 Nat.sub_eq_zero_of_le htk, List.take_zero,
                 List.append_nil] at h2
          have hl : l = (x :: a') ++ l.drop (x :: a').length := by
            conv_lhs => rw [← List.take_append_drop (x :: a').length l, hu]
          have hb : l.drop (x :: a').length ++ r = b := by
            have h3 := hr
            rw [hl, List.append_assoc] at h3
            exact List.append_cancel_left h3
          refine Or.inr (Or.inr
            ⟨x :: a', l.drop (x :: a').length, hl, by simp, ?_,
             List.suffix_refl _, ⟨r, hb⟩⟩)
          have hpos : 0 < (l.drop (x :: a').length).length := by
            rw [List.length_drop]
            simp only [List.length_cons] at hlen ⊢
            omega
          exact List.length_pos.mp hpos
      · rcases ih hinf with h1 | h2 | ⟨p, q, rfl, hp, hq, hpa, hqb⟩
        · exact Or.inl (List.infix_cons h1)
        · exact Or.inr (Or.inl h2)
        · exact Or.inr (Or.inr
            ⟨p, q, rfl, hp, hq, hpa.trans (List.suffix_cons x a'), hqb⟩)

/-- Replacing `pat` by `rep` removes every occurrence of `pat` and cannot
create a new one, provided `pat` starts with a character not occurring in
`rep`, the first character of `rep` does not occur in `pat.tail`, and
`pat` does not occur inside `rep`. -/
theorem pyReplace_kills_pat (pat rep : List Char) (c0 r0 : Char)
    (h0 : pat.head? = some c0) (hr : rep.head? = some r0) (hc : c0 ∉ rep)
    (ht : r0 ∉ pat.tail) (hpr : ¬ pat <:+: rep) (s : List Char) :
    ¬ pat <:+: pyReplace s pat rep := by
  intro hinf
  obtain ⟨pt, rfl⟩ : ∃ pt, pat = c0 :: pt := by
    cases pat with
    | nil => simp at h0
    | cons x xs =>
        exact ⟨xs, by simpa using congrArg (fun o => o.elim (c0 :: xs) (· :: xs)) h0⟩
  by_cases hm : (c0 :: pt) ≠ [] ∧ (c0 :: pt) <+: s
  · rw [pyReplace_pos s _ rep hm.1 hm.2] at hinf
    rcases infix_append_cases hinf with h1 | h2 | ⟨p, q, hpq, hp, hq, hpa, hqb⟩
    · exact hpr h1
    · exact pyReplace_kills_pat _ rep c0 r0 h0 hr hc ht hpr _ h2
    · cases p with
      | nil => exact hp rfl
      | cons x xs =>
          have hx : x = c0 := by
            rw [List.cons_append] at hpq
            exact (List.cons.injEq _ _ _ _ ▸ hpq).1.symm
          exact hc (hx ▸ hpa.sublist.subset (List.mem_cons_self x xs))
  · cases s with
    | nil =>
        rw [pyReplace_nil] at hinf
        exact List.cons_ne_nil c0 pt (List.eq_nil_of_infix_nil hinf)
    | cons a t =>
        rw [pyReplace_cons a t _ rep hm] at hinf
        rcases List.infix_cons_iff.mp hinf with hpre | htl
        · rw [List.cons_prefix_cons] at hpre
          obtain ⟨rfl, hps⟩ := hpre
          have hpt : pt <+: t := pyReplace_pull_back _ rep r0 hr t pt ht hps
          exact hm ⟨List.cons_ne_nil _ _, List.cons_prefix_cons.mpr ⟨rfl, hpt⟩⟩
        · exact pyReplace_kills_pat _ rep c0 r0 h0 hr hc ht hpr t htl
termination_by s.length
decreasing_by
  all_goals subst_vars
  all_goals
    first
      | (have hple := List.IsPrefix.length_le hm.2
         simp only [List.length_drop, List.length_cons, List.length_singleton] at hple ⊢
         omega)
      | simp

/-- Replacing `pat2` by `rep2` cannot introduce an occurrence of an
unrelated pattern `pat` that was not already present, provided `pat`
starts with a character not occurring in `rep2`, the first character of
`rep2` does not occur in `pat.tail`, and `pat` does not occur inside
`rep2`. -/
theorem pyReplace_keeps_absent (pat pat2 rep2 : List Char) (c0 r0 : Char)
    (h0 : pat.head? = some c0) (hr : rep2.head? = some r0) (hc : c0 ∉ rep2)
    (ht : r0 ∉ pat.tail) (hpr : ¬ pat <:+: rep2) (s : List Char)
    (hs : ¬ pat <:+: s) : ¬ pat <:+: pyReplace s pat2 rep2 := by
  intro hinf
  obtain ⟨pt, rfl⟩ : ∃ pt, pat = c0 :: pt := by
    cases pat with
    | nil => simp at h0
    | cons x xs =>
        exact ⟨xs, by simpa using congrArg (fun o => o.elim (c0 :: xs) (· :: xs)) h0⟩
  by_cases hm : pat2 ≠ [] ∧ pat2 <+: s
  · rw [pyReplace_pos s pat2 rep2 hm.1 hm.2] at hinf
    rcases infix_append_cases hinf with h1 | h2 | ⟨p, q, hpq, hp, hq, hpa, hqb⟩
    · exact hpr h1
    · exact pyReplace_keeps_absent _ pat2 rep2 c0 r0 h0 hr hc ht hpr _
        (fun hd => hs (hd.trans (List.drop_suffix _ s).isInfix)) h2
    · cases p with
      | nil => exact hp rfl
      | cons x xs =>
          have hx : x = c0 := by
            rw [List.cons_append] at hpq
            exact (List.cons.injEq _ _ _ _ ▸ hpq).1.symm
          exact hc (hx ▸ hpa.sublist.subset (List.mem_cons_self x xs))
  · cases s with
    | nil =>
        rw [pyReplace_nil] at hinf
        exact List.cons_ne_nil c0 pt (List.eq_nil_of_infix_nil hinf)
    | cons a t =>
        rw [pyReplace_cons a t pat2 rep2 hm] at hinf
        rcases List.infix_cons_iff.mp hinf with hpre | htl
        · rw [List.cons_prefix_cons] at hpre
          obtain ⟨rfl, hps⟩ := hpre
          have hpt : pt <+: t := pyReplace_pull_back pat2 rep2 r0 hr t pt ht hps
          exact hs (List.cons_prefix_cons.mpr ⟨rfl, hpt⟩).isInfix
        · exact pyReplace_keeps_absent _ pat2 rep2 c0 r0 h0 hr hc ht hpr t
            (fun hd => hs (List.infix_cons hd)) htl
termination_by s.length
decreasing_by
  all_goals subst_vars
  all_goals
    first
      | (have hple := List.IsPrefix.length_le hm.2
         have hpos := List.length_pos.mpr hm.1
         simp only [List.length_drop, List.length_cons, List.length_singleton] at hple hpos ⊢
         omega)
      | simp

/-- A character that is not in the replacement and is itself the (single
character) pattern does not survive `replace`. -/
theorem not_mem_pyReplace_self (c : Char) (rep : List Char) (hc : c ∉ rep)
    (s : List Char) : c ∉ pyReplace s [c] rep := by
  by_cases hm : ([c] : List Char) ≠ [] ∧ [c] <+: s
  · rw [pyReplace_pos s [c] rep hm.1 hm.2]
    intro hmem
    rcases List.mem_append.mp hmem with h1 | h2
    · exact hc h1
    · exact not_mem_pyReplace_self c rep hc _ h2
  · cases s with
    | nil =>
        rw [pyReplace_nil]
        simp
    | cons a t =>
        rw [pyReplace_cons a t [c] rep hm]
        intro hmem
        rcases List.mem_cons.mp hmem with h1 | h2
        · exact hm ⟨by simp, List.cons_prefix_cons.mpr ⟨h1, List.nil_prefix⟩⟩
        · exact not_mem_pyReplace_self c rep hc t h2
termination_by s.length
decreasing_by
  all_goals subst_vars
  all_goals
    first
      | (have hple := List.IsPrefix.length_le hm.2
         simp only [List.length_drop, List.length_cons, List.length_singleton] at hple ⊢
         omega)
      | simp

/-- A one-element list is an infix exactly when its element occurs. -/
theorem infix_one_iff_mem {α : Type} (c : α) (s : List α) :
    [c] <:+: s ↔ c ∈ s := by
  constructor
  · intro h
    exact h.sublist.subset (List.mem_cons_self c [])
  · intro h
    obtain ⟨u, v, rfl⟩ := List.append_of_mem h
    exact ⟨u, v, by simp⟩

/-- A match of `pat` at the start of `u ++ v` that would spill into `v`
forces the head of `v` to occur in `pat`. -/
theorem match_stays_left (pat u v : List Char) (hm : pat <+: u ++ v)
    (hv : ∀ c, v.head? = some c → c ∉ pat) : pat.length ≤ u.length := by
  by_contra hgt
  have hlt : u.length < pat.length := Nat.lt_of_not_le hgt
  cases v with
  | nil =>
      have := hm.length_le
      simp at this
      omega
  | cons c v' =>
      have hcp : c ∈ pat := by
        have hul : u.length < (u ++ (c :: v')).length := by
          simp
        have h1 : pat[u.length] = (u ++ (c :: v'))[u.length] :=
          hm.getElem hlt
        have h2 : (u ++ (c :: v'))[u.length] = c := by
          rw [List.getElem_append_right (Nat.le_refl _)]
          simp
        have h3 : pat[u.length] = c := h1.trans h2
        exact h3 ▸ List.getElem_mem hlt
      exact hv c rfl hcp

/-- `replace` distributes over an append whose right part starts with a
character that does not occur in the pattern (so no match straddles the
boundary). -/
theorem pyReplace_append_right (pat rep u v : List Char)
    (hv : ∀ c, v.head? = some c → c ∉ pat) :
    pyReplace (u ++ v) pat rep = pyReplace u pat rep ++ pyReplace v pat rep := by
  rcases eq_or_ne pat [] with rfl | hpat
  · rw [pyReplace_nil_pat, pyReplace_nil_pat, pyReplace_nil_pat]
  cases u with
  | nil => rw [List.nil_append, pyReplace_nil, List.nil_append]
  | cons a u' =>
      by_cases hm : pat <+: (a :: u') ++ v
      · have hlen : pat.length ≤ (a :: u').length := match_stays_left pat _ v hm hv
        have hpu : pat <+: a :: u' := by
          rw [List.prefix_iff_eq_take]
          have h1 := List.prefix_iff_eq_take.mp hm
          rwa [List.take_append_eq_append_take,
               Nat.sub_eq_zero_of_le hlen, List.take_zero,
               List.append_nil] at h1
        rw [pyReplace_pos _ pat rep hpat hm, pyReplace_pos _ pat rep hpat hpu,
            List.drop_append_eq_append_drop, Nat.sub_eq_zero_of_le hlen,
            List.drop_zero,
            pyReplace_append_right pat rep ((a :: u').drop pat.length) v hv,
            List.append_assoc]
      · have hpu : ¬ pat <+: a :: u' := fun hp =>
          hm (hp.trans (List.prefix_append (a :: u') v))
        rw [List.cons_append,
            pyReplace_neg a (u' ++ v) pat rep (by rwa [List.cons_append] at hm),
            pyReplace_neg a u' pat rep hpu,
            pyReplace_append_right pat rep u' v hv, List.cons_append]
termination_by u.length
decreasing_by
  · have hpos : 0 < pat.length := List.length_pos.mpr hpat
    simp only [List.length_drop, List.length_cons]
    omega
  · simp

/-- Dropping a proper prefix keeps the last element. -/
theorem getLast?_drop_ne_nil (l : List Char) (n : Nat) (h : l.drop n ≠ []) :
    (l.drop n).getLast? = l.getLast? := by
  conv_rhs => rw [← List.take_append_drop n l]
  rw [List.getLast?_append]
  cases hd : (l.drop n).getLast? with
  | none => exact absurd (List.getLast?_eq_none_iff.mp hd) h
  | some c => rfl

/-- A match of `pat` at the start of `u ++ v` stays inside a non-empty `u`
when the last character of `u` does not occur in `pat`. -/
theorem match_stays_left' (pat u v : List Char) (hm : pat <+: u ++ v)
    (hu : ∀ c, u.getLast? = some c → c ∉ pat) (hune : u ≠ []) :
    pat.length ≤ u.length := by
  by_contra hgt
  obtain ⟨u'', b, hub⟩ := (List.eq_nil_or_concat u).resolve_left hune
  rw [List.concat_eq_append] at hub
  subst hub
  have hb : b ∉ pat := hu b (List.getLast?_concat u'')
  have hlt : u''.length < pat.length := by
    simp only [List.length_append, List.length_cons, List.length_nil] at hgt
    omega
  rw [List.append_assoc] at hm
  have hul : u''.length < (u'' ++ ([b] ++ v)).length := by
    simp
  have h1 : pat[u''.length] = (u'' ++ ([b] ++ v))[u''.length] :=
    hm.getElem hlt
  have h2 : (u'' ++ ([b] ++ v))[u''.length] = b := by
    rw [List.getElem_append_right (Nat.le_refl _)]
    simp
  exact hb ((h1.trans h2) ▸ List.getElem_mem hlt)

/-- `replace` distributes over an append whose left part ends with a
character that does not occur in the pattern. -/
theorem pyReplace_append_left (pat rep u v : List Char)
    (hu : ∀ c, u.getLast? = some c → c ∉ pat) :
    pyReplace (u ++ v) pat rep = pyReplace u pat rep ++ pyReplace v pat rep := by
  rcases eq_or_ne pat [] with rfl | hpat
  · rw [pyReplace_nil_pat, pyReplace_nil_pat, pyReplace_nil_pat]
  cases u with
  | nil => rw [List.nil_append, pyReplace_nil, List.nil_append]
  | cons a u' =>
      by_cases hm : pat <+: (a :: u') ++ v
      · have hlen : pat.length ≤ (a :: u').length :=
          match_stays_left' pat _ v hm hu (List.cons_ne_nil a u')
        have hpu : pat <+: a :: u' := by
          rw [List.prefix_iff_eq_take]
          have h1 := List.prefix_iff_eq_take.mp hm
          rwa [List.take_append_eq_append_take,
               Nat.sub_eq_zero_of_le hlen, List.take_zero,
               List.append_nil] at h1
        have hu'' : ∀ c, ((a :: u').drop pat.length).getLast? = some c → c ∉ pat := by
          intro c hc
          rcases eq_or_ne ((a :: u').drop pat.length) [] with hd | hd
          · rw [hd] at hc
            simp at hc
          · rw [getLast?_drop_ne_nil _ _ hd] at hc
            exact hu c hc
        rw [pyReplace_pos _ pat rep hpat hm, pyReplace_pos _ pat rep hpat hpu,
            List.drop_append_eq_append_drop, Nat.sub_eq_zero_of_le hlen,
            List.drop_zero,
            pyReplace_append_left pat rep ((a :: u').drop pat.length) v hu'',
            List.append_assoc]
      · have hpu : ¬ pat <+: a :: u' := fun hp =>
          hm (hp.trans (List.prefix_append (a :: u') v))
        have hu' : ∀ c, u'.getLast? = some c → c ∉ pat := by
          intro c hc
          refine hu c ?_
          rw [show (a :: u') = [a] ++ u' from rfl, List.getLast?_append, hc]
          rfl
        rw [List.cons_append,
            pyReplace_neg a (u' ++ v) pat rep (by rwa [List.cons_append] at hm),
            pyReplace_neg a u' pat rep hpu,
            pyReplace_append_left pat rep u' v hu', List.cons_append]
termination_by u.length
decreasing_by
  all_goals subst_vars
  all_goals simp only [List.length_drop, List.length_cons]
  all_goals
    first
      | (have hpos := List.length_pos.mpr hpat
         omega)
      | omega

/-!  ## Message splitting and sending (`TelegramBot`) -/

/-- The Telegram message limit (`MAX_MESSAGE_LENGTH = 4096`). -/
def MAX_MESSAGE_LENGTH : Nat := 4096

/-- Python `str.isspace()` — also the character class stripped by the
default `str.lstrip()` — for the code points CPython treats as space. -/
def pyIsSpace (c : Char) : Bool :=
  c.toNat ∈ [0x09, 0x0a, 0x0b, 0x0c, 0x0d, 0x1c, 0x1d, 0x1e, 0x1f, 0x20,
             0x85, 0xa0, 0x1680, 0x2000, 0x2001, 0x2002, 0x2003, 0x2004,
             0x2005, 0x2006, 0x2007, 0x2008, 0x2009, 0x200a, 0x2028,
             0x2029, 0x202f, 0x205f, 0x3000]

/-- `l.rfind('\n')` restricted to `l`: the highest index holding a newline,
`none` for Python's `-1`. -/
def rfindNl (l : List Char) : Option Nat :=
  ((List.range l.length).filter fun i => l.getD i ' ' == '\n').getLast?

/-- What a successful `rfindNl` returns: an in-range newline position. -/
theorem rfindNl_some (l : List Char) (i : Nat) (h : rfindNl l = some i) :
    i < l.length ∧ l.getD i ' ' = '\n' := by
  unfold rfindNl at h
  have hmem : i ∈ (List.range l.length).filter fun j => l.getD j ' ' == '\n' :=
    List.mem_of_mem_getLast? h
  have := List.of_mem_filter hmem
  have hrange := List.mem_range.mp (List.mem_of_mem_filter hmem)
  exact ⟨hrange, by simpa using this⟩

/-- If `l` holds no newline, `rfindNl` finds none. -/
theorem rfindNl_none (l : List Char) (h : ('\n' : Char) ∉ l) :
    rfindNl l = none := by
  unfold rfindNl
  have : (List.range l.length).filter (fun i => l.getD i ' ' == '\n') = [] := by
    rw [List.filter_eq_nil_iff]
    intro i hi
    have hlt := List.mem_range.mp hi
    simp only [beq_iff_eq]
    intro hc
    exact h (hc ▸ (List.getD_eq_getElem l ' ' hlt ▸ List.getElem_mem hlt))
  rw [this]
  rfl

/-- Dropping a satisfied head strictly shrinks the list. -/
theorem length_dropWhile_lt (p : Char → Bool) (a : Char) (t : List Char)
    (hp : p a = true) : ((a :: t).dropWhile p).length < (a :: t).length := by
  rw [List.dropWhile_cons_of_pos hp]
  exact Nat.lt_succ_of_le ((List.dropWhile_sublist p).length_le)

/-- The remainder after one cut is strictly shorter than the text. -/
theorem split_rest_length_lt (text : List Char)
    (hlen : MAX_MESSAGE_LENGTH < text.length) :
    ((text.drop ((rfindNl (text.take MAX_MESSAGE_LENGTH)).getD
        MAX_MESSAGE_LENGTH)).dropWhile pyIsSpace).length < text.length := by
  rcases hfind : rfindNl (text.take MAX_MESSAGE_LENGTH) with - | i
  · simp only [Option.getD_none]
    calc ((text.drop MAX_MESSAGE_LENGTH).dropWhile pyIsSpace).length
        ≤ (text.drop MAX_MESSAGE_LENGTH).length := (List.dropWhile_sublist _).length_le
      _ < text.length := by
          rw [List.length_drop]
          simp only [MAX_MESSAGE_LENGTH] at *
          omega
  · simp only [Option.getD_some]
    obtain ⟨hlt, hnl⟩ := rfindNl_some _ _ hfind
    have hlt' : i < text.length := by
      have := List.length_take MAX_MESSAGE_LENGTH text
      omega
    have hdrop : text.drop i = text[i] :: text.drop (i + 1) :=
      List.drop_eq_getElem_cons hlt'
    have hsp : pyIsSpace text[i] = true := by
      have h1 : (text.take MAX_MESSAGE_LENGTH).getD i ' ' = text[i] := by
        rw [List.getD_eq_getElem _ _ hlt, List.getElem_take]
      rw [h1] at hnl
      rw [hnl]
      rfl
    calc ((text.drop i).dropWhile pyIsSpace).length
        < (text.drop i).length := by
          rw [hdrop]
          exact length_dropWhile_lt pyIsSpace _ _ hsp
      _ ≤ text.length := by
          rw [List.length_drop]
          omega

/-- Worker for `_split_message`, structurally recursive on a fuel argument
so the kernel can evaluate it; `fuel ≥ text.length` makes it exact. -/
def splitMessageF : Nat → List Char → List (List Char)
  | 0, text => if text = [] then [] else [text]
  | fuel + 1, text =>
      if text.length > MAX_MESSAGE_LENGTH then
        let split_index := (rfindNl (text.take MAX_MESSAGE_LENGTH)).getD MAX_MESSAGE_LENGTH
        text.take split_index ::
          splitMessageF fuel ((text.drop split_index).dropWhile pyIsSpace)
      else if text = [] then [] else [text]

/-- `TelegramBot._split_message(text)`: repeatedly cut at the last newline
before the limit (or exactly at the limit when there is none), stripping
leading whitespace from the remainder; a final non-empty remainder is the
last chunk. -/
def split_message (text : List Char) : List (List Char) :=
  splitMessageF text.length text

/-- Any fuel at least `text.length` computes the same chunks. -/
theorem splitMessageF_invariant (fuel : Nat) :
    ∀ (fuel' : Nat) (text : List Char), text.length ≤ fuel → text.length ≤ fuel' →
      splitMessageF fuel text = splitMessageF fuel' text := by
  induction fuel with
  | zero =>
      intro fuel' text h h'
      have ht : text = [] := List.eq_nil_of_length_eq_zero (Nat.le_zero.mp h)
      subst ht
      cases fuel' with
      | zero => rfl
      | succ f => simp [splitMessageF, MAX_MESSAGE_LENGTH]
  | succ f ih =>
      intro fuel' text h h'
      cases fuel' with
      | zero =>
          have ht : text = [] := List.eq_nil_of_length_eq_zero (Nat.le_zero.mp h')
          subst ht
          simp [splitMessageF, MAX_MESSAGE_LENGTH]
      | succ f' =>
          simp only [splitMessageF]
          by_cases hlen : text.length > MAX_MESSAGE_LENGTH
          · rw [if_pos hlen, if_pos hlen]
            have hrest := split_rest_length_lt text hlen
            congr 1
            apply ih
            · omega
            · omega
          · rw [if_neg hlen, if_neg hlen]

/-- The recursive unfolding of `_split_message`. -/
theorem split_message_eq (text : List Char) :
    split_message text =
      (if text.length > MAX_MESSAGE_LENGTH then
        text.take ((rfindNl (text.take MAX_MESSAGE_LENGTH)).getD MAX_MESSAGE_LENGTH) ::
          split_message ((text.drop ((rfindNl (text.take MAX_MESSAGE_LENGTH)).getD
            MAX_MESSAGE_LENGTH)).dropWhile pyIsSpace)
      else if text = [] then [] else [text]) := by
  by_cases hlen : text.length > MAX_MESSAGE_LENGTH
  · rw [if_pos hlen]
    unfold split_message
    obtain ⟨k, hk⟩ : ∃ k, text.length = k + 1 :=
      ⟨text.length - 1, by simp only [MAX_MESSAGE_LENGTH] at hlen; omega⟩
    rw [hk]
    simp only [splitMessageF]
    rw [if_pos hlen]
    congr 1
    apply splitMessageF_invariant
    · have := split_rest_length_lt text hlen
      omega
    · exact Nat.le_refl _
  · rw [if_neg hlen]
    unfold split_message
    cases hL : text.length with
    | zero =>
        have ht : text = [] := List.eq_nil_of_length_eq_zero hL
        subst ht
        rfl
    | succ k =>
        simp only [splitMessageF]
        rw [if_neg (hL ▸ hlen)]

/-- Reassembly: `cs` lists the chunks of `s` in order; between consecutive
chunks (and possibly after the last) only whitespace was removed. -/
inductive Reassembles : List (List Char) → List Char → Prop
  | nil : Reassembles [] []
  | chunk (c w : List Char) (cs : List (List Char)) (rest : List Char)
      (hw : ∀ x ∈ w, pyIsSpace x = true)
      (h : Reassembles cs rest) : Reassembles (c :: cs) (c ++ (w ++ rest))

/-- The splitter only removes boundary whitespace, in order. -/
theorem split_message_reassembles (text : List Char) :
    Reassembles (split_message text) text := by
  rw [split_message_eq]
  by_cases hlen : text.length > MAX_MESSAGE_LENGTH
  · rw [if_pos hlen]
    have hre := split_message_reassembles
      ((text.drop ((rfindNl (text.take MAX_MESSAGE_LENGTH)).getD MAX_MESSAGE_LENGTH)).dropWhile pyIsSpace)
    have hsplit : text =
        text.take ((rfindNl (text.take MAX_MESSAGE_LENGTH)).getD MAX_MESSAGE_LENGTH) ++
          (((text.drop ((rfindNl (text.take MAX_MESSAGE_LENGTH)).getD MAX_MESSAGE_LENGTH)).takeWhile pyIsSpace) ++
           ((text.drop ((rfindNl (text.take MAX_MESSAGE_LENGTH)).getD MAX_MESSAGE_LENGTH)).dropWhile pyIsSpace)) := by
      rw [List.takeWhile_append_dropWhile, List.take_append_drop]
    conv_rhs => rw [hsplit]
    exact Reassembles.chunk _ _ _ _ (fun x hx => List.mem_takeWhile_imp hx) hre
  · rw [if_neg hlen]
    by_cases hnil : text = []
    · rw [if_pos hnil, hnil]
      exact Reassembles.nil
    · rw [if_neg hnil]
      have := Reassembles.chunk text [] [] [] (by simp) Reassembles.nil
      simpa using this
termination_by text.length
decreasing_by
  exact split_rest_length_lt _ hlen

/-- Every chunk the splitter produces respects the limit. -/
theorem split_message_chunk_le (text : List Char) (c : List Char)
    (hc : c ∈ split_message text) : c.length ≤ MAX_MESSAGE_LENGTH := by
  rw [split_message_eq] at hc
  by_cases hlen : text.length > MAX_MESSAGE_LENGTH
  · rw [if_pos hlen] at hc
    rcases List.mem_cons.mp hc with rfl | hmem
    · have hsi : (rfindNl (text.take MAX_MESSAGE_LENGTH)).getD MAX_MESSAGE_LENGTH ≤
          MAX_MESSAGE_LENGTH := by
        rcases hfind : rfindNl (text.take MAX_MESSAGE_LENGTH) with - | i
        · simp
        · simp only [Option.getD_some]
          have := (rfindNl_some _ _ hfind).1
          have h2 := List.length_take MAX_MESSAGE_LENGTH text
          omega
      calc (text.take _).length ≤ _ := List.length_take_le _ _
        _ ≤ MAX_MESSAGE_LENGTH := hsi
    · exact split_message_chunk_le _ c hmem
  · rw [if_neg hlen] at hc
    by_cases hnil : text = []
    · rw [if_pos hnil] at hc
      simp at hc
    · rw [if_neg hnil] at hc
      rcases List.mem_singleton.mp hc with rfl
      omega
termination_by text.length
decreasing_by
  exact split_rest_length_lt _ hlen

/-- The chunk list `send_message` iterates over: the split for long texts,
otherwise just the text itself. -/
def messagesOf (text : List Char) : List (List Char) :=
  if text.length > MAX_MESSAGE_LENGTH then split_message text else [text]

/-- The chunk loop of `send_message`: `fail i` tells whether the `i`-th
`_send_single_message` call raises (`requests.post` / `raise_for_status`).
Returns the texts passed to `_send_single_message` — the failing call
included — and whether an exception aborted the loop. -/
def sendLoop (fail : Nat → Bool) : List (List Char) → Nat → List (List Char) × Bool
  | [], _ => ([], false)
  | c :: cs, i =>
      if fail i then ([c], true)
      else
        let r := sendLoop fail cs (i + 1)
        (c :: r.1, r.2)

/-- Observable outcome of `TelegramBot.send_message`. -/
structure SendOutcome where
  calls : List (List Char)
  raised : Bool
deriving DecidableEq

/-- `TelegramBot.send_message(text)`: the whole chunk loop runs inside a
single `try/except Exception` that logs and swallows, so nothing ever
propagates to the caller (`raised = false`) — and a failing chunk call
aborts the remainder of the loop. -/
def send_message (fail : Nat → Bool) (text : List Char) : SendOutcome :=
  ⟨(sendLoop fail (messagesOf text) 0).1, false⟩

/-- With no failures the loop sends every chunk. -/
theorem sendLoop_all_ok (fail : Nat → Bool) (cs : List (List Char)) (k : Nat)
    (h : ∀ i, fail i = false) : sendLoop fail cs k = (cs, false) := by
  induction cs generalizing k with
  | nil => rfl
  | cons c cs ih => simp [sendLoop, h k, ih (k + 1)]

/-- The calls made are always an initial segment of the chunk list. -/
theorem sendLoop_calls_take (fail : Nat → Bool) (cs : List (List Char))
    (k : Nat) : (sendLoop fail cs k).1 <+: cs := by
  induction cs generalizing k with
  | nil => exact List.nil_prefix
  | cons c cs ih =>
      rw [sendLoop]
      by_cases hf : fail k
      · rw [if_pos hf]
        exact List.cons_prefix_cons.mpr ⟨rfl, List.nil_prefix⟩
      · rw [if_neg hf]
        exact List.cons_prefix_cons.mpr ⟨rfl, ih (k + 1)⟩

/-- The loop stops right after the first failing call. -/
theorem sendLoop_first_fail (fail : Nat → Bool) (cs : List (List Char))
    (k j : Nat) (hbefore : ∀ i, i < j → fail (k + i) = false)
    (hj : fail (k + j) = true) (hlt : j < cs.length) :
    sendLoop fail cs k = (cs.take (j + 1), true) := by
  induction cs generalizing k j with
  | nil => simp at hlt
  | cons c cs ih =>
      cases j with
      | zero =>
          have hk : fail k = true := by simpa using hj
          simp [sendLoop, hk]
      | succ j' =>
          have h0 : fail k = false := by simpa using hbefore 0 (Nat.succ_pos _)
          have hrec := ih (k + 1) j'
            (fun i hi => by
              have hcl := hbefore (i + 1) (Nat.succ_lt_succ hi)
              have harw : k + (i + 1) = k + 1 + i := by omega
              rwa [harw] at hcl)
            (by
              have harw : k + (j' + 1) = k + 1 + j' := by omega
              rwa [harw] at hj)
            (by simpa using hlt)
          simp [sendLoop, h0, hrec]

/-!  ## Dynamically-typed payloads

The JSON payload the framework hands to the handlers is a Python object
accessed with `.get`, slicing, `len`, iteration and f-string
interpolation.  `PyVal` embeds those values; operations that CPython
answers with an `AttributeError`/`TypeError` return `Except.error`.
-/

/-- A Python value as found in webhook payloads. -/
inductive PyVal : Type
  | none
  | bool (b : Bool)
  | int (n : Int)
  | str (s : List Char)
  | list (l : List PyVal)
  | dict (entries : List (List Char × PyVal))

/-- Exceptions raised by dynamic access. -/
inductive PyErr : Type
  | attributeError
  | typeError
deriving DecidableEq

/-- First-match association lookup (payload dictionaries have distinct
keys, so this is Python dict lookup). -/
def lookupEntry : List (List Char × PyVal) → List Char → Option PyVal
  | [], _ => Option.none
  | (k, v) :: rest, key => if k == key then some v else lookupEntry rest key

/-- `x.get(key, default)`: only dictionaries have `.get`; any other
receiver raises `AttributeError`. -/
def pyGet : PyVal → List Char → PyVal → Except PyErr PyVal
  | .dict entries, key, dflt => .ok ((lookupEntry entries key).getD dflt)
  | _, _, _ => .error .attributeError

/-- Python truthiness (`if x:`, `and`, ternary conditions). -/
def pyTruthy : PyVal → Bool
  | .none => false
  | .bool b => b
  | .int n => n != 0
  | .str s => !s.isEmpty
  | .list l => !l.isEmpty
  | .dict d => !d.isEmpty

/-- Python `repr(x)` for containers.  Faithful for `None`, booleans,
integers and containers of them; for strings the quoting is not
escape-aware (no claim interpolates a container holding quote
characters). -/
def pyRepr : PyVal → List Char
  | .none => "None".toList
  | .bool true => "True".toList
  | .bool false => "False".toList
  | .int n => n.repr.toList
  | .str s => '\'' :: (s ++ ['\''])
  | .list l =>
      '[' :: (List.intercalate (", ".toList)
        (l.attach.map fun x => pyRepr x.1) ++ [']'])
  | .dict d =>
      Char.ofNat 123 :: (List.intercalate (", ".toList)
        (d.attach.map fun e => pyRepr (.str e.1.1) ++ (": ".toList) ++ pyRepr e.1.2) ++
        [Char.ofNat 125])
decreasing_by
  all_goals simp_wf
  · have := List.sizeOf_lt_of_mem x.2
    omega
  · rcases e with ⟨⟨k, v⟩, hmem⟩
    have := List.sizeOf_lt_of_mem hmem
    simp only [Prod.mk.sizeOf_spec] at this ⊢
    omega
  · rcases e with ⟨⟨k, v⟩, hmem⟩
    have := List.sizeOf_lt_of_mem hmem
    simp only [Prod.mk.sizeOf_spec] at this ⊢
    omega

/-- Python `str(x)`, as f-string interpolation applies it: identity on
`str`, the `repr` rendering on everything else (spelled out for the
atoms). -/
def pyStr : PyVal → List Char
  | .str s => s
  | .none => "None".toList
  | .bool true => "True".toList
  | .bool false => "False".toList
  | .int n => n.repr.toList
  | v => pyRepr v

/-- `x == "lit"` for a string literal: `str` equality, `False` for any
other type. -/
def pyEqStr (v : PyVal) (s : List Char) : Bool :=
  match v with
  | .str t => t == s
  | _ => false

/-- `x[:n]` on a sliceable receiver (`str` or `list`). -/
def pySliceTo (n : Nat) : PyVal → Except PyErr PyVal
  | .str s => .ok (.str (s.take n))
  | .list l => .ok (.list (l.take n))
  | _ => .error .typeError

/-- Iterating a `list` yields its items, a `str` its characters. -/
def pyIterItems : PyVal → Except PyErr (List PyVal)
  | .list l => .ok l
  | .str s => .ok (s.map fun c => .str [c])
  | _ => .error .typeError

/-- `x.split('\n')[0]` on a `str` receiver: the first line. -/
def pySplitNlHead : PyVal → Except PyErr (List Char)
  | .str s => .ok (s.takeWhile fun c => c != '\n')
  | _ => .error .attributeError

/-- `x.replace(old, new)` on a `str` receiver. -/
def pyStrReplace (old new : List Char) : PyVal → Except PyErr (List Char)
  | .str s => .ok (pyReplace s old new)
  | _ => .error .attributeError

/-- `len(x)` for sized receivers; `TypeError` otherwise. -/
def pyLen : PyVal → Except PyErr Nat
  | .str s => .ok s.length
  | .list l => .ok l.length
  | .dict d => .ok d.length
  | _ => .error .typeError

/-- `emoji_map.get(action, default)`: dict of string keys, so any
non-string action falls to the default. -/
def emojiGet (table : List (List Char × List Char)) (action : PyVal)
    (dflt : List Char) : List Char :=
  match action with
  | .str a =>
      match table.lookup a with
      | some e => e
      | Option.none => dflt
  | _ => dflt

/-!  ## Event formatters

Each `handle_*_event` function in the source builds a message string and
passes it to `telegram_bot.send_message`; the embeddings return the text
handed to `send_message` (`Option` when the source only sends for certain
actions), with `Except.error` for a dynamic-access exception, which the
endpoint's outer `except` turns into a 500.
-/

/-- The loop body of `format_commit_info`: one line of
`f"• \x60{commit_id}\x60 {message} - {author}"`. -/
def formatOneCommit (commit : PyVal) : Except PyErr (List Char) := do
  let authorD ← pyGet commit ("author".toList) (.dict [])
  let author ← pyGet authorD ("name".toList) (.str ("Unknown".toList))
  let msgV ← pyGet commit ("message".toList) (.str [])
  let firstLine ← pySplitNlHead msgV
  let idV ← pyGet commit ("id".toList) (.str [])
  let idSl ← pySliceTo 7 idV
  pure (("• `".toList) ++ pyStr idSl ++ ("` ".toList) ++ firstLine.take 100 ++
        (" - ".toList) ++ pyStr author)

/-- `format_commit_info(commits)`. -/
def format_commit_info (commits : PyVal) : Except PyErr (List Char) :=
  if pyTruthy commits = false then .ok []
  else do
    let sliced ← pySliceTo 5 commits
    let items ← pyIterItems sliced
    let lines ← items.mapM formatOneCommit
    let n ← pyLen commits
    let lines := if n > 5 then
        lines ++ [("... and ".toList) ++ (Nat.repr (n - 5)).toList ++ (" more commits".toList)]
      else lines
    return List.intercalate ['\n'] lines

/-- `handle_push_event(payload)`: the text passed to `send_message`. -/
def handle_push_event (payload : PyVal) : Except PyErr (List Char) := do
  let repoD ← pyGet payload ("repository".toList) (.dict [])
  let repo ← pyGet repoD ("full_name".toList) (.str ("Unknown".toList))
  let pusherD ← pyGet payload ("pusher".toList) (.dict [])
  let pusher ← pyGet pusherD ("name".toList) (.str ("Unknown".toList))
  let refV ← pyGet payload ("ref".toList) (.str [])
  let ref ← pyStrReplace ("refs/heads/".toList) [] refV
  let commits ← pyGet payload ("commits".toList) (.list [])
  let compare ← pyGet payload ("compare".toList) (.str [])
  let commit_count ← pyLen commits
  let commit_word := if commit_count == 1 then "commit".toList else "commits".toList
  let msg := ("🚀 *Push to ".toList) ++ pyStr repo ++ ("*\n📝 ".toList) ++
      (Nat.repr commit_count).toList ++ [' '] ++ commit_word ++ (" by `".toList) ++
      pyStr pusher ++ ("` to `".toList) ++ ref ++ ("`\n\n".toList)
  if pyTruthy commits then do
    let ci ← format_commit_info commits
    return msg ++ ("*Commits:*\n".toList) ++ ci ++
      ("\n\n[View Changes](".toList) ++ pyStr compare ++ [')']
  else
    return msg

/-- The fixed `emoji_map` of `handle_issues_event`. -/
def issues_emoji_map : List (List Char × List Char) :=
  [("opened".toList, "🐛".toList), ("closed".toList, "✅".toList),
   ("reopened".toList, "🔄".toList), ("assigned".toList, "👤".toList),
   ("unassigned".toList, "👤".toList), ("labeled".toList, "🏷️".toList),
   ("unlabeled".toList, "🏷️".toList)]

/-- `handle_issues_event(payload)`: the text passed to `send_message`. -/
def handle_issues_event (payload : PyVal) : Except PyErr (List Char) := do
  let actionV ← pyGet payload ("action".toList) (.str ("unknown".toList))
  let issue ← pyGet payload ("issue".toList) (.dict [])
  let title ← pyGet issue ("title".toList) (.str ("Unknown".toList))
  let number ← pyGet issue ("number".toList) (.str [])
  let url ← pyGet issue ("html_url".toList) (.str [])
  let repoD ← pyGet payload ("repository".toList) (.dict [])
  let repo ← pyGet repoD ("full_name".toList) (.str ("Unknown".toList))
  let senderD ← pyGet payload ("sender".toList) (.dict [])
  let user ← pyGet senderD ("login".toList) (.str ("Unknown".toList))
  let emoji := emojiGet issues_emoji_map actionV ("📋".toList)
  return emoji ++ (" *Issue ".toList) ++ pyStr actionV ++ ("* in ".toList) ++
    pyStr repo ++ ("\n#".toList) ++ pyStr number ++ (": [".toList) ++ pyStr title ++
    ("](".toList) ++ pyStr url ++ (")\nby `".toList) ++ pyStr user ++ ['`']

/-- The per-call `emoji_map` of `handle_pull_request_event`; the `closed`
entry depends on the pull request's `merged` flag. -/
def pr_emoji_map (mergedV : PyVal) : List (List Char × List Char) :=
  [("opened".toList, "🔀".toList),
   ("closed".toList, if pyTruthy mergedV then "✅".toList else "❌".toList),
   ("reopened".toList, "🔄".toList), ("merged".toList, "🎉".toList),
   ("ready_for_review".toList, "👀".toList),
   ("review_requested".toList, "👀".toList)]

/-- `handle_pull_request_event(payload)`: the text passed to
`send_message`, after the conditional `closed`→`merged` / `❌`→`🎉`
rewrites. -/
def handle_pull_request_event (payload : PyVal) : Except PyErr (List Char) := do
  let actionV ← pyGet payload ("action".toList) (.str ("unknown".toList))
  let pr ← pyGet payload ("pull_request".toList) (.dict [])
  let title ← pyGet pr ("title".toList) (.str ("Unknown".toList))
  let number ← pyGet pr ("number".toList) (.str [])
  let url ← pyGet pr ("html_url".toList) (.str [])
  let repoD ← pyGet payload ("repository".toList) (.dict [])
  let repo ← pyGet repoD ("full_name".toList) (.str ("Unknown".toList))
  let senderD ← pyGet payload ("sender".toList) (.dict [])
  let user ← pyGet senderD ("login".toList) (.str ("Unknown".toList))
  let mergedV ← pyGet pr ("merged".toList) .none
  let emoji := emojiGet (pr_emoji_map mergedV) actionV ("🔀".toList)
  let message := emoji ++ (" *PR ".toList) ++ pyStr actionV ++ ("* in ".toList) ++
    pyStr repo ++ ("\n#".toList) ++ pyStr number ++ (": [".toList) ++ pyStr title ++
    ("](".toList) ++ pyStr url ++ (")\nby `".toList) ++ pyStr user ++ ['`']
  if pyEqStr actionV ("closed".toList) && pyTruthy mergedV then
    return pyReplace (pyReplace message ("closed".toList) ("merged".toList))
      ("❌".toList) ("🎉".toList)
  else
    return message

/-- `handle_release_event(payload)`: `send_message` is only called for the
`published` action. -/
def handle_release_event (payload : PyVal) : Except PyErr (Option (List Char)) := do
  let actionV ← pyGet payload ("action".toList) (.str ("unknown".toList))
  let release ← pyGet payload ("release".toList) (.dict [])
  let tag ← pyGet release ("tag_name".toList) (.str ("Unknown".toList))
  let name ← pyGet release ("name".toList) tag
  let url ← pyGet release ("html_url".toList) (.str [])
  let repoD ← pyGet payload ("repository".toList) (.dict [])
  let repo ← pyGet repoD ("full_name".toList) (.str ("Unknown".toList))
  if pyEqStr actionV ("published".toList) then
    return some (("🎉 *New Release* in ".toList) ++ pyStr repo ++ ("\n📦 [".toList) ++
      pyStr name ++ ("](".toList) ++ pyStr url ++ (")\nTag: `".toList) ++
      pyStr tag ++ ['`'])
  else
    return Option.none

/-- `handle_star_event(payload)`: `send_message` is only called for the
`created` action. -/
def handle_star_event (payload : PyVal) : Except PyErr (Option (List Char)) := do
  let actionV ← pyGet payload ("action".toList) (.str ("unknown".toList))
  let repoD ← pyGet payload ("repository".toList) (.dict [])
  let repo ← pyGet repoD ("full_name".toList) (.str ("Unknown".toList))
  let senderD ← pyGet payload ("sender".toList) (.dict [])
  let user ← pyGet senderD ("login".toList) (.str ("Unknown".toList))
  let repoD2 ← pyGet payload ("repository".toList) (.dict [])
  let stars ← pyGet repoD2 ("stargazers_count".toList) (.int 0)
  if pyEqStr actionV ("created".toList) then
    return some (("⭐ *New Star* for ".toList) ++ pyStr repo ++
      ("\nStarred by `".toList) ++ pyStr user ++ ("`\nTotal stars: ".toList) ++
      pyStr stars)
  else
    return Option.none

/-!  ## The HTTP endpoint -/

/-- An inbound request as `github_webhook` reads it.  `parsed` is the
outcome of the framework call `request.get_json(force=True)` (the HTTP
framework is an external collaborator): `none` models a body that is not
valid JSON, in which case the handler's inner `try/except` answers 400. -/
structure WebhookRequest where
  event : Option (List Char)
  signature : Option (List Char)
  delivery : Option (List Char)
  body : List Nat
  parsed : Option PyVal

/-- The event dispatch of `github_webhook`: which texts are passed to
`telegram_bot.send_message`.  A `None` event header matches no branch. -/
def dispatchEvent (event : Option (List Char)) (payload : PyVal) :
    Except PyErr (List (List Char)) :=
  match event with
  | Option.none => .ok []
  | some e =>
      if e == "push".toList then do
        let m ← handle_push_event payload
        return [m]
      else if e == "issues".toList then do
        let m ← handle_issues_event payload
        return [m]
      else if e == "pull_request".toList then do
        let m ← handle_pull_request_event payload
        return [m]
      else if e == "release".toList then do
        let m ← handle_release_event payload
        return m.toList
      else if e == "star".toList then do
        let m ← handle_star_event payload
        return m.toList
      else
        .ok []

/-- `github_webhook()`: the HTTP status returned and the texts passed to
`telegram_bot.send_message`.  Signature failure → 401 before parsing;
parse failure → 400 before dispatch; a handler exception reaches the
outer `except` → 500; otherwise 200. -/
def github_webhook (secret : Option (List Char)) (req : WebhookRequest) :
    Nat × List (List Char) :=
  if verify_github_signature secret req.body req.signature = false then
    (401, [])
  else
    match req.parsed with
    | Option.none => (400, [])
    | some payload =>
        match dispatchEvent req.event payload with
        | .ok msgs => (200, msgs)
        | .error _ => (500, [])

/-!  ## Claims -/

/-- **C1.** For every body (byte string) and provided signature, when a
secret is configured (non-empty) and a signature header is present (with a
non-empty value — the code treats an empty header value like an absent
one), `verify_github_signature` returns true iff the provided signature
equals `"sha256="` followed by the hex digest of the HMAC-SHA256 of the
body keyed by the UTF-8 encoded secret; when no secret is configured,
verify returns true for every body and signature. -/
theorem verify_signature_spec (s g : List Char) (body : List Nat)
    (hs : s ≠ []) (hg : g ≠ []) :
    (verify_github_signature (some s) body (some g) = true ↔
      g = ("sha256=".toList) ++ hexdigest (hmacSha256 (utf8Encode s) body)) ∧
    (∀ (b : List Nat) (sig : Option (List Char)),
      verify_github_signature Option.none b sig = true) := by
  constructor
  · unfold verify_github_signature
    rw [if_neg (by simp [hs, hg])]
    simp only [Option.getD_some, beq_iff_eq, expected_signature]
    exact eq_comm
  · intro b sig
    simp [verify_github_signature]

/-- Witness for **C1** at a concrete secret, body and signature. -/
theorem verify_signature_spec_witness :
    (verify_github_signature (some ("k".toList)) [] (some ("x".toList)) = true ↔
      "x".toList = ("sha256=".toList) ++ hexdigest (hmacSha256 (utf8Encode ("k".toList)) [])) ∧
    (∀ (b : List Nat) (sig : Option (List Char)),
      verify_github_signature Option.none b sig = true) :=
  verify_signature_spec ("k".toList) ("x".toList) [] (by decide) (by decide)

/-- **C9.** For every request whose body fails to parse as JSON while
signature verification succeeds, the endpoint responds 400 and no text is
handed to the notifier. -/
theorem malformed_json_returns_400 (secret : Option (List Char))
    (req : WebhookRequest) (hparse : req.parsed = Option.none)
    (hver : verify_github_signature secret req.body req.signature = true) :
    github_webhook secret req = (400, []) := by
  unfold github_webhook
  rw [hver, hparse]
  rw [if_neg (by simp)]

/-- Witness for **C9** on a concrete unparseable request. -/
theorem malformed_json_returns_400_witness :
    github_webhook Option.none
      ⟨Option.none, Option.none, Option.none, [], Option.none⟩ = (400, []) :=
  malformed_json_returns_400 _ _ rfl rfl

/-- **C2 counterexample.** With a secret configured and the signature
header missing, the endpoint does *not* answer 401: verification is
skipped (`if not GITHUB_WEBHOOK_SECRET or not signature_header: return
True`), the body is parsed and the push event dispatched to the
notifier. -/
theorem missing_signature_is_processed :
    (github_webhook (some ("s".toList))
      ⟨some ("push".toList), Option.none, Option.none, [], some (.dict [])⟩).1 = 200 ∧
    (github_webhook (some ("s".toList))
      ⟨some ("push".toList), Option.none, Option.none, [], some (.dict [])⟩).2 ≠ [] := by
  decide

/-- **C2 (amended).** With a secret configured, a request whose signature
header is present (non-empty) but does not match the recomputed signature
is answered 401 with nothing parsed or dispatched; a request with a
missing signature header is never answered 401 (verification is
skipped). -/
theorem signature_auth_amended (s : List Char) (hs : s ≠ []) :
    (∀ (req : WebhookRequest) (g : List Char), req.signature = some g → g ≠ [] →
        g ≠ expected_signature s req.body →
        github_webhook (some s) req = (401, [])) ∧
    (∀ req : WebhookRequest, req.signature = Option.none →
        (github_webhook (some s) req).1 ≠ 401) := by
  constructor
  · intro req g hsig hg hne
    have hv : verify_github_signature (some s) req.body req.signature = false := by
      rw [hsig]
      unfold verify_github_signature
      rw [if_neg (by simp [hs, hg])]
      simp only [Option.getD_some, beq_eq_false_iff_ne]
      exact fun h => hne h.symm
    unfold github_webhook
    rw [hv]
    rw [if_pos rfl]
  · intro req hsig
    have hv : verify_github_signature (some s) req.body req.signature = true := by
      rw [hsig]
      simp [verify_github_signature]
    unfold github_webhook
    rw [hv]
    rw [if_neg (by simp)]
    cases hp : req.parsed with
    | none => simp
    | some payload =>
        cases hd : dispatchEvent req.event payload with
        | ok msgs => simp [hd]
        | error e => simp [hd]

/-- Witness for **C2 (amended)** on a concrete mismatching signature. -/
theorem signature_auth_amended_witness :
    github_webhook (some ("k".toList))
      ⟨Option.none, some ("x".toList), Option.none, [], Option.none⟩ = (401, []) :=
  (signature_auth_amended ("k".toList) (by decide)).1
    ⟨Option.none, some ("x".toList), Option.none, [], Option.none⟩
    ("x".toList) rfl (by decide) (by decide)

/-- A run of `'a'`s holds no newline. -/
theorem rfindNl_replicate (n : Nat) :
    rfindNl (List.replicate n 'a') = Option.none := by
  apply rfindNl_none
  intro h
  have := List.eq_of_mem_replicate h
  simp at this

/-- The splitter on 4097 `'a'`s: one hard cut at the limit. -/
theorem split_message_replicate :
    split_message (List.replicate 4097 'a') = [List.replicate 4096 'a', ['a']] := by
  rw [split_message_eq]
  have hlen : (List.replicate 4097 'a').length > MAX_MESSAGE_LENGTH := by
    rw [List.length_replicate]
    norm_num [MAX_MESSAGE_LENGTH]
  rw [if_pos hlen]
  have htake : (List.replicate 4097 'a').take MAX_MESSAGE_LENGTH =
      List.replicate 4096 'a' := by
    rw [List.take_replicate]
    norm_num [MAX_MESSAGE_LENGTH]
  rw [htake, rfindNl_replicate]
  simp only [Option.getD_none]
  rw [htake]
  have hdrop : (List.replicate 4097 'a').drop MAX_MESSAGE_LENGTH = ['a'] := by
    rw [List.drop_replicate]
    norm_num [MAX_MESSAGE_LENGTH]
  rw [hdrop]
  have hdw : List.dropWhile pyIsSpace ['a'] = ['a'] := by decide
  rw [hdw]
  have hsingle : split_message ['a'] = [['a']] := by
    rw [split_message_eq]
    norm_num [MAX_MESSAGE_LENGTH]
  rw [hsingle]

/-- The chunk list of `send_message` on 4097 `'a'`s. -/
theorem messagesOf_replicate :
    messagesOf (List.replicate 4097 'a') = [List.replicate 4096 'a', ['a']] := by
  unfold messagesOf
  rw [if_pos (by rw [List.length_replicate]; norm_num [MAX_MESSAGE_LENGTH]),
      split_message_replicate]

/-- **C3.** For every string longer than 4096 characters, the splitter
produces an ordered chunk list in which no chunk exceeds 4096 characters,
and re-inserting the whitespace removed at chunk boundaries reconstructs
the original string. -/
theorem split_message_spec (text : List Char) (hlen : text.length > 4096) :
    (∀ c ∈ split_message text, c.length ≤ 4096) ∧
    Reassembles (split_message text) text :=
  ⟨fun c hc => split_message_chunk_le text c hc, split_message_reassembles text⟩

/-- Witness for **C3** on a concrete 4097-character string. -/
theorem split_message_spec_witness :
    (∀ c ∈ split_message (List.replicate 4097 'a'), c.length ≤ 4096) ∧
    Reassembles (split_message (List.replicate 4097 'a'))
      (List.replicate 4097 'a') :=
  split_message_spec _ (by rw [List.length_replicate]; norm_num)

/-- **C4 counterexample.** On a two-chunk message whose first outbound call
fails, `send_message` swallows the exception (nothing raises to the
caller) but the second chunk is never sent: the `try/except` wraps the
whole loop, so the failure aborts it. -/
theorem send_failure_blocks_rest :
    (send_message (fun i => i == 0) (List.replicate 4097 'a')).raised = false ∧
    (send_message (fun i => i == 0) (List.replicate 4097 'a')).calls.length <
      (messagesOf (List.replicate 4097 'a')).length := by
  refine ⟨rfl, ?_⟩
  unfold send_message
  rw [messagesOf_replicate]
  have hloop : sendLoop (fun i => i == 0) [List.replicate 4096 'a', ['a']] 0 =
      ([List.replicate 4096 'a'], true) := rfl
  rw [hloop]
  norm_num

/-- **C4 (amended).** A failure on one chunk never raises to the caller of
`send_message`, but it stops the loop: the calls made are always an
initial segment of the chunk list; with no failures every chunk is sent,
and with a first failure at index `j` exactly the chunks up to and
including `j` are attempted. -/
theorem send_message_swallows_and_stops (fail : Nat → Bool) (text : List Char) :
    (send_message fail text).raised = false ∧
    (send_message fail text).calls <+: messagesOf text ∧
    ((∀ i, fail i = false) → (send_message fail text).calls = messagesOf text) ∧
    (∀ j, (∀ i, i < j → fail i = false) → fail j = true →
      j < (messagesOf text).length →
      (send_message fail text).calls = (messagesOf text).take (j + 1)) := by
  refine ⟨rfl, sendLoop_calls_take _ _ 0, ?_, ?_⟩
  · intro h
    unfold send_message
    rw [sendLoop_all_ok fail _ 0 h]
  · intro j hb hj hlt
    unfold send_message
    rw [sendLoop_first_fail fail _ 0 j (fun i hi => by simpa using hb i hi)
      (by simpa using hj) hlt]

/-- Witness for **C4 (amended)**: first call fails, only the first chunk is
attempted. -/
theorem send_message_swallows_and_stops_witness :
    (send_message (fun i => i == 0) (List.replicate 4097 'a')).calls =
      (messagesOf (List.replicate 4097 'a')).take 1 :=
  (send_message_swallows_and_stops (fun i => i == 0) (List.replicate 4097 'a')).2.2.2
    0 (fun i hi => absurd hi (Nat.not_lt_zero i)) rfl
    (by rw [messagesOf_replicate]; decide)

/-- A single optional dictionary entry (a field that may be absent from a
payload). -/
def optEntry (k : List Char) (v : Option PyVal) : List (List Char × PyVal) :=
  match v with
  | some x => [(k, x)]
  | Option.none => []

/-- The fields a push-payload commit may carry. -/
structure CommitArgs where
  id : Option (List Char)
  message : Option (List Char)
  author_name : Option (List Char)
deriving DecidableEq

/-- A commit dictionary as GitHub sends it, with the given fields
present. -/
def mkCommit (c : CommitArgs) : PyVal :=
  .dict (optEntry ("id".toList) (c.id.map (.str ·)) ++
         optEntry ("message".toList) (c.message.map (.str ·)) ++
         optEntry ("author".toList)
           (c.author_name.map fun a => .dict [("name".toList, .str a)]))

/-- The line `format_commit_info` renders for one commit: 7-character short
id, first line of the message truncated to 100 characters, author name
(defaulting to `Unknown`). -/
def commitLine (c : CommitArgs) : List Char :=
  ("• `".toList) ++ ((c.id.getD []).take 7) ++ ("` ".toList) ++
  (((c.message.getD []).takeWhile fun ch => ch != '\n').take 100) ++
  (" - ".toList) ++ (c.author_name.getD ("Unknown".toList))

/-- The loop body evaluates each commit dictionary to its line. -/
theorem formatOneCommit_mk (c : CommitArgs) :
    formatOneCommit (mkCommit c) = .ok (commitLine c) := by
  rcases c with ⟨i, m, a⟩
  rcases i with - | i <;> rcases m with - | m <;> rcases a with - | a <;> rfl

/-- `mapM` over successfully mapped elements. -/
theorem mapM_map_ok {α β γ : Type} (f : β → Except PyErr γ) (m : α → β)
    (g : α → γ) (l : List α) (h : ∀ x ∈ l, f (m x) = .ok (g x)) :
    (l.map m).mapM f = .ok (l.map g) := by
  induction l with
  | nil => rfl
  | cons x t ih =>
      rw [List.map_cons, List.mapM_cons, h x (List.mem_cons_self x t),
          ih fun y hy => h y (List.mem_cons_of_mem x hy)]
      rfl

/-- Full evaluation of `format_commit_info` on a list of commit
dictionaries. -/
theorem format_commit_info_mk (cs : List CommitArgs) :
    format_commit_info (.list (cs.map mkCommit)) =
      .ok (if cs = [] then [] else
        List.intercalate ['\n']
          ((cs.take 5).map commitLine ++
           (if cs.length > 5 then
              [("... and ".toList) ++ (Nat.repr (cs.length - 5)).toList ++
               (" more commits".toList)]
            else []))) := by
  rcases hcs : cs with - | ⟨c0, cs'⟩
  · rfl
  · rw [← hcs]
    have hne : cs ≠ [] := by rw [hcs]; exact List.cons_ne_nil _ _
    have hmapne : cs.map mkCommit ≠ [] := fun hmap => hne (List.map_eq_nil_iff.mp hmap)
    unfold format_commit_info
    rw [if_neg (by simp [pyTruthy, List.isEmpty_iff, hmapne])]
    simp only [pySliceTo, pyIterItems, pyLen, bind, Except.bind,
      ← List.map_take]
    rw [mapM_map_ok formatOneCommit mkCommit commitLine (cs.take 5)
        fun c _ => formatOneCommit_mk c]
    simp only [Except.bind, List.length_map, pure, Except.pure]
    rw [if_neg hne]
    by_cases h5 : cs.length > 5
    · rw [if_pos h5, if_pos h5]
    · rw [if_neg h5, if_neg h5, List.append_nil]

/-- **C5.** For every commit list with more than 5 commits, the formatted
commit block consists of exactly the 5 lines for the first five commits —
each with the commit id's first 7 characters, the first line of the commit
message truncated to 100 characters, and the author name — followed by one
summary line whose remainder count is the number of commits minus 5. -/
theorem format_commit_info_five_plus (cs : List CommitArgs)
    (h : cs.length > 5) :
    format_commit_info (.list (cs.map mkCommit)) =
      .ok (List.intercalate ['\n']
        ((cs.take 5).map commitLine ++
         [("... and ".toList) ++ (Nat.repr (cs.length - 5)).toList ++
          (" more commits".toList)])) ∧
    ((cs.take 5).map commitLine).length = 5 := by
  constructor
  · rw [format_commit_info_mk,
        if_neg (by intro hnil; rw [hnil] at h; simp at h), if_pos h]
  · rw [List.length_map, List.length_take]
    omega

/-- A concrete six-commit list. -/
def sixCommits : List CommitArgs :=
  List.replicate 6 ⟨some ("0123456789".toList), some ("subject".toList),
    some ("dev".toList)⟩

/-- Witness for **C5** on six commits. -/
theorem format_commit_info_five_plus_witness :
    format_commit_info (.list (sixCommits.map mkCommit)) =
      .ok (List.intercalate ['\n']
        ((sixCommits.take 5).map commitLine ++
         [("... and ".toList) ++ (Nat.repr (sixCommits.length - 5)).toList ++
          (" more commits".toList)])) ∧
    ((sixCommits.take 5).map commitLine).length = 5 :=
  format_commit_info_five_plus sixCommits (by decide)

/-- The commit block rendered by `format_commit_info` on a non-empty
list. -/
def commitBlock (cs : List CommitArgs) : List Char :=
  List.intercalate ['\n']
    ((cs.take 5).map commitLine ++
     (if cs.length > 5 then
        [("... and ".toList) ++ (Nat.repr (cs.length - 5)).toList ++
         (" more commits".toList)]
      else []))

/-- `format_commit_info` in terms of `commitBlock`. -/
theorem format_commit_info_mk' (cs : List CommitArgs) :
    format_commit_info (.list (cs.map mkCommit)) =
      .ok (if cs = [] then [] else commitBlock cs) :=
  format_commit_info_mk cs

/-- A push payload with all scalar fields present. -/
def mkPushPayload (repo pusher ref compare : List Char)
    (commits : List CommitArgs) : PyVal :=
  .dict [("repository".toList, .dict [("full_name".toList, .str repo)]),
         ("pusher".toList, .dict [("name".toList, .str pusher)]),
         ("ref".toList, .str ref),
         ("commits".toList, .list (commits.map mkCommit)),
         ("compare".toList, .str compare)]

/-- The header lines of the push message (`n` = commit count). -/
def pushMsgHeader (repo pusher ref : List Char) (n : Nat) : List Char :=
  ("🚀 *Push to ".toList) ++ repo ++ ("*\n📝 ".toList) ++ (Nat.repr n).toList ++
  [' '] ++ (if n == 1 then "commit".toList else "commits".toList) ++
  (" by `".toList) ++ pusher ++ ("` to `".toList) ++
  pyReplace ref ("refs/heads/".toList) [] ++ ("`\n\n".toList)

/-- Push message for an empty commit list: header only, no link line. -/
theorem handle_push_event_mk_nil (repo pusher ref compare : List Char) :
    handle_push_event (mkPushPayload repo pusher ref compare []) =
      .ok (pushMsgHeader repo pusher ref 0) := rfl

/-- Push message for a non-empty commit list: header, commit block and
compare link. -/
theorem handle_push_event_mk_cons (repo pusher ref compare : List Char)
    (c0 : CommitArgs) (rest : List CommitArgs) :
    handle_push_event (mkPushPayload repo pusher ref compare (c0 :: rest)) =
      .ok (pushMsgHeader repo pusher ref (c0 :: rest).length ++
           ("*Commits:*\n".toList) ++ commitBlock (c0 :: rest) ++
           ("\n\n[View Changes](".toList) ++ compare ++ [')']) := by
  have hstep : handle_push_event (mkPushPayload repo pusher ref compare (c0 :: rest)) =
      (format_commit_info (.list ((c0 :: rest).map mkCommit))).bind
        (fun ci => .ok (pushMsgHeader repo pusher ref
            ((c0 :: rest).map mkCommit).length ++
          ("*Commits:*\n".toList) ++ ci ++ ("\n\n[View Changes](".toList) ++
          compare ++ [')'])) := rfl
  rw [hstep, format_commit_info_mk', if_neg (List.cons_ne_nil c0 rest)]
  rw [List.length_map]
  rfl

/-- **C7 counterexample.** A push payload with an empty commit list
produces a message with no compare-link line at all: the link is only
appended inside `if commits:`. -/
theorem push_without_commits_lacks_link :
    handle_push_event (mkPushPayload ("org/repo".toList) ("alice".toList)
      ("refs/heads/main".toList) ("http://cmp".toList) []) =
      .ok ("🚀 *Push to org/repo*\n📝 0 commits by `alice` to `main`\n\n".toList) ∧
    ¬ (("[View Changes](".toList) ++ ("http://cmp".toList) ++ [')']) <:+
      ("🚀 *Push to org/repo*\n📝 0 commits by `alice` to `main`\n\n".toList) := by
  constructor
  · rfl
  · decide

/-- **C7 (amended).** For every push payload with a *non-empty* commit
list, the formatted push message ends with the link line built from the
payload's compare URL. -/
theorem push_message_ends_with_link (repo pusher ref compare : List Char)
    (commits : List CommitArgs) (hne : commits ≠ []) :
    ∃ m, handle_push_event (mkPushPayload repo pusher ref compare commits) = .ok m ∧
      (("[View Changes](".toList) ++ compare ++ [')']) <:+ m := by
  rcases commits with - | ⟨c0, rest⟩
  · exact absurd rfl hne
  · refine ⟨_, handle_push_event_mk_cons repo pusher ref compare c0 rest, ?_⟩
    refine ⟨pushMsgHeader repo pusher ref (c0 :: rest).length ++
      ("*Commits:*\n".toList) ++ commitBlock (c0 :: rest) ++ ("\n\n".toList), ?_⟩
    simp only [List.append_assoc]
    rfl

/-- Witness for **C7 (amended)** on a one-commit payload. -/
theorem push_message_ends_with_link_witness :
    ∃ m, handle_push_event (mkPushPayload ("org/repo".toList) ("alice".toList)
        ("refs/heads/main".toList) ("http://cmp".toList)
        [⟨some ("abc".toList), some ("m".toList), some ("a".toList)⟩]) = .ok m ∧
      (("[View Changes](".toList) ++ ("http://cmp".toList) ++ [')']) <:+ m :=
  push_message_ends_with_link _ _ _ _ _ (by decide)

/-- A pull-request payload with all relevant fields present. -/
def mkPRPayload (action title : List Char) (number : Int) (url : List Char)
    (merged : Bool) (repo user : List Char) : PyVal :=
  .dict [("action".toList, .str action),
         ("pull_request".toList, .dict
            [("title".toList, .str title), ("number".toList, .int number),
             ("html_url".toList, .str url), ("merged".toList, .bool merged)]),
         ("repository".toList, .dict [("full_name".toList, .str repo)]),
         ("sender".toList, .dict [("login".toList, .str user)])]

/-- Both rewrites the source applies to a merged-closed PR message, as one
function: `.replace("closed", "merged").replace("❌", "🎉")`. -/
def doubleRep (s : List Char) : List Char :=
  pyReplace (pyReplace s ("closed".toList) ("merged".toList))
    ("❌".toList) ("🎉".toList)

/-- Evaluation of the handler on a merged-closed PR payload: the raw
message (with the ✅ marker the `closed` table entry produces when
`merged` is truthy) under both global replacements. -/
theorem handle_pr_closed_merged_eval (title : List Char) (number : Int)
    (url repo user : List Char) :
    handle_pull_request_event
        (mkPRPayload ("closed".toList) title number url true repo user) =
      .ok (doubleRep (("✅ *PR closed* in ".toList) ++ repo ++ ("\n#".toList) ++
        number.repr.toList ++ (": [".toList) ++ title ++ ("](".toList) ++ url ++
        (")\nby `".toList) ++ user ++ ['`'])) := rfl

/-- Lift a computed `getLast?` fact to the side condition of
`pyReplace_append_left`. -/
theorem condLast_of (lit pat : List Char) (c0 : Char)
    (h : lit.getLast? = some c0) (hc : c0 ∉ pat) :
    ∀ c, lit.getLast? = some c → c ∉ pat := by
  intro c hcc
  rw [h] at hcc
  cases hcc
  exact hc

/-- Lift a computed `head?` fact to the side condition of
`pyReplace_append_right`. -/
theorem condHead_of (v pat : List Char) (c0 : Char)
    (h : v.head? = some c0) (hc : c0 ∉ pat) :
    ∀ c, v.head? = some c → c ∉ pat := by
  intro c hcc
  rw [h] at hcc
  cases hcc
  exact hc

/-- Head condition for an append whose left part is non-empty. -/
theorem condHead_append_of (l rest pat : List Char) (hne : l ≠ [])
    (hh : ∀ c, l.head? = some c → c ∉ pat) :
    ∀ c, (l ++ rest).head? = some c → c ∉ pat := by
  intro c hcc
  cases l with
  | nil => exact absurd rfl hne
  | cons x t =>
      rw [List.cons_append] at hcc
      simp only [List.head?_cons] at hcc
      cases hcc
      exact hh _ rfl

/-- `replace` distributes over the eleven-segment shape of the PR message:
fixed literals `l0 … l5` interleaved with payload-dependent segments
`v1 … v5`, provided the literals' boundary characters avoid the
pattern. -/
theorem pyReplace_pr_shape (pat rep l0 l1 l2 l3 l4 l5 v1 v2 v3 v4 v5 : List Char)
    (h0 : ∀ c, l0.getLast? = some c → c ∉ pat)
    (hne1 : l1 ≠ []) (h1h : ∀ c, l1.head? = some c → c ∉ pat)
    (h1l : ∀ c, l1.getLast? = some c → c ∉ pat)
    (hne2 : l2 ≠ []) (h2h : ∀ c, l2.head? = some c → c ∉ pat)
    (h2l : ∀ c, l2.getLast? = some c → c ∉ pat)
    (hne3 : l3 ≠ []) (h3h : ∀ c, l3.head? = some c → c ∉ pat)
    (h3l : ∀ c, l3.getLast? = some c → c ∉ pat)
    (hne4 : l4 ≠ []) (h4h : ∀ c, l4.head? = some c → c ∉ pat)
    (h4l : ∀ c, l4.getLast? = some c → c ∉ pat)
    (h5h : ∀ c, l5.head? = some c → c ∉ pat) :
    pyReplace (l0 ++ (v1 ++ (l1 ++ (v2 ++ (l2 ++ (v3 ++ (l3 ++ (v4 ++
        (l4 ++ (v5 ++ l5)))))))))) pat rep =
      pyReplace l0 pat rep ++ (pyReplace v1 pat rep ++ (pyReplace l1 pat rep ++
        (pyReplace v2 pat rep ++ (pyReplace l2 pat rep ++ (pyReplace v3 pat rep ++
        (pyReplace l3 pat rep ++ (pyReplace v4 pat rep ++ (pyReplace l4 pat rep ++
        (pyReplace v5 pat rep ++ pyReplace l5 pat rep))))))))) := by
  rw [pyReplace_append_left pat rep l0 _ h0]
  congr 1
  rw [pyReplace_append_right pat rep v1 _ (condHead_append_of l1 _ pat hne1 h1h)]
  congr 1
  rw [pyReplace_append_left pat rep l1 _ h1l]
  congr 1
  rw [pyReplace_append_right pat rep v2 _ (condHead_append_of l2 _ pat hne2 h2h)]
  congr 1
  rw [pyReplace_append_left pat rep l2 _ h2l]
  congr 1
  rw [pyReplace_append_right pat rep v3 _ (condHead_append_of l3 _ pat hne3 h3h)]
  congr 1
  rw [pyReplace_append_left pat rep l3 _ h3l]
  congr 1
  rw [pyReplace_append_right pat rep v4 _ (condHead_append_of l4 _ pat hne4 h4h)]
  congr 1
  rw [pyReplace_append_left pat rep l4 _ h4l]
  congr 1
  rw [pyReplace_append_right pat rep v5 l5 h5h]

/-- The merged-closed PR message decomposed segment by segment: the
template with every payload-dependent segment itself passed through both
replacements. -/
theorem pr_merged_message_decomp (title : List Char) (number : Int)
    (url repo user : List Char) :
    handle_pull_request_event
        (mkPRPayload ("closed".toList) title number url true repo user) =
      .ok (("✅ *PR merged* in ".toList) ++ doubleRep repo ++ ("\n#".toList) ++
        doubleRep number.repr.toList ++ (": [".toList) ++ doubleRep title ++
        ("](".toList) ++ doubleRep url ++ (")\nby `".toList) ++ doubleRep user ++
        ("`".toList)) := by
  rw [handle_pr_closed_merged_eval]
  congr 1
  unfold doubleRep
  simp only [List.append_assoc]
  rw [pyReplace_pr_shape ("closed".toList) ("merged".toList)
      ("✅ *PR closed* in ".toList) ("\n#".toList) (": [".toList) ("](".toList)
      (")\nby `".toList) (['`']) repo number.repr.toList title url user
      (condLast_of _ _ ' ' rfl (by decide))
      (by decide) (condHead_of _ _ '\n' rfl (by decide))
      (condLast_of _ _ '#' rfl (by decide))
      (by decide) (condHead_of _ _ ':' rfl (by decide))
      (condLast_of _ _ '[' rfl (by decide))
      (by decide) (condHead_of _ _ ']' rfl (by decide))
      (condLast_of _ _ '(' rfl (by decide))
      (by decide) (condHead_of _ _ ')' rfl (by decide))
      (condLast_of _ _ '`' rfl (by decide))
      (condHead_of _ _ '`' rfl (by decide))]
  rw [pyReplace_pr_shape ("❌".toList) ("🎉".toList)
      (pyReplace ("✅ *PR closed* in ".toList) ("closed".toList) ("merged".toList))
      (pyReplace ("\n#".toList) ("closed".toList) ("merged".toList))
      (pyReplace (": [".toList) ("closed".toList) ("merged".toList))
      (pyReplace ("](".toList) ("closed".toList) ("merged".toList))
      (pyReplace (")\nby `".toList) ("closed".toList) ("merged".toList))
      (pyReplace ['`'] ("closed".toList) ("merged".toList))
      (pyReplace repo ("closed".toList) ("merged".toList))
      (pyReplace number.repr.toList ("closed".toList) ("merged".toList))
      (pyReplace title ("closed".toList) ("merged".toList))
      (pyReplace url ("closed".toList) ("merged".toList))
      (pyReplace user ("closed".toList) ("merged".toList))
      (condLast_of _ _ ' ' rfl (by decide))
      (by decide) (condHead_of _ _ '\n' rfl (by decide))
      (condLast_of _ _ '#' rfl (by decide))
      (by decide) (condHead_of _ _ ':' rfl (by decide))
      (condLast_of _ _ '[' rfl (by decide))
      (by decide) (condHead_of _ _ ']' rfl (by decide))
      (condLast_of _ _ '(' rfl (by decide))
      (by decide) (condHead_of _ _ ')' rfl (by decide))
      (condLast_of _ _ '`' rfl (by decide))
      (condHead_of _ _ '`' rfl (by decide))]
  rfl

/-- **C10.** For every pull_request payload with action `closed` and
merged flag true, the `closed`→`merged` and `❌`→`🎉` rewrites are global
substring replacements over the whole formatted message: the final message
is the template with *every* payload-dependent segment — the repository
name, the number, the title, the URL and the sender login included —
itself passed through both replacements. -/
theorem pr_merged_replaces_globally (title : List Char) (number : Int)
    (url repo user : List Char) :
    handle_pull_request_event
        (mkPRPayload ("closed".toList) title number url true repo user) =
      .ok (("✅ *PR merged* in ".toList) ++ doubleRep repo ++ ("\n#".toList) ++
        doubleRep number.repr.toList ++ (": [".toList) ++ doubleRep title ++
        ("](".toList) ++ doubleRep url ++ (")\nby `".toList) ++ doubleRep user ++
        ("`".toList)) :=
  pr_merged_message_decomp title number url repo user

/-- **C6 counterexample.** On a merged-closed PR the emoji chosen for the
`closed` action is ✅ (the `merged` branch of the table), and since the
raw message then holds no ❌, the `❌`→`🎉` replacement does nothing: the
🎉 marker never appears. -/
theorem pr_merged_message_no_tada :
    handle_pull_request_event
        (mkPRPayload ("closed".toList) ("Fix".toList) 1 ("u".toList) true
          ("org/repo".toList) ("bob".toList)) =
      .ok ("✅ *PR merged* in org/repo\n#1: [Fix](u)\nby `bob`".toList) ∧
    ¬ (("🎉".toList) <:+:
        ("✅ *PR merged* in org/repo\n#1: [Fix](u)\nby `bob`".toList)) :=
  ⟨rfl, by decide⟩

/-- **C6 (amended).** For every pull_request payload with action `closed`
and merged flag true, the message uses the `merged` wording and the ✅
marker (the message starts with `✅ *PR merged*`), and contains neither
the word `closed` nor the ❌ marker. -/
theorem pr_merged_message_markers (title : List Char) (number : Int)
    (url repo user : List Char) :
    ∃ m, handle_pull_request_event
        (mkPRPayload ("closed".toList) title number url true repo user) = .ok m ∧
      ("✅ *PR merged*".toList <+: m) ∧
      (("PR merged".toList) <:+: m) ∧
      ¬ (("closed".toList) <:+: m) ∧
      ¬ (("❌".toList) <:+: m) := by
  refine ⟨_, handle_pr_closed_merged_eval title number url repo user, ?_, ?_, ?_, ?_⟩
  · have heq := Except.ok.inj
      ((handle_pr_closed_merged_eval title number url repo user).symm.trans
        (pr_merged_message_decomp title number url repo user))
    rw [heq]
    simp only [List.append_assoc]
    exact (show ("✅ *PR merged*".toList) <+: ("✅ *PR merged* in ".toList) by decide).trans
      (List.prefix_append _ _)
  · have heq := Except.ok.inj
      ((handle_pr_closed_merged_eval title number url repo user).symm.trans
        (pr_merged_message_decomp title number url repo user))
    rw [heq]
    simp only [List.append_assoc]
    exact (show ("PR merged".toList) <:+: ("✅ *PR merged* in ".toList) by decide).trans
      (List.prefix_append _ _).isInfix
  · have h1 : ¬ (("closed".toList) <:+:
        pyReplace (("✅ *PR closed* in ".toList) ++ repo ++ ("\n#".toList) ++
          number.repr.toList ++ (": [".toList) ++ title ++ ("](".toList) ++ url ++
          (")\nby `".toList) ++ user ++ ['`']) ("closed".toList) ("merged".toList)) :=
      pyReplace_kills_pat ("closed".toList) ("merged".toList) 'c' 'm' rfl rfl
        (by decide) (by decide) (by decide) _
    exact pyReplace_keeps_absent ("closed".toList) ("❌".toList) ("🎉".toList)
      'c' '🎉' rfl rfl (by decide) (by decide) (by decide) _ h1
  · intro hinf
    have hmem := (infix_one_iff_mem '❌' _).mp hinf
    exact not_mem_pyReplace_self '❌' ("🎉".toList) (by decide) _ hmem

/-- Witness for **C6 (amended)** at a concrete payload. -/
theorem pr_merged_message_markers_witness :
    ∃ m, handle_pull_request_event
        (mkPRPayload ("closed".toList) ("closed stuff".toList) 2 ("u".toList) true
          ("org".toList) ("alice".toList)) = .ok m ∧
      ("✅ *PR merged*".toList <+: m) ∧
      (("PR merged".toList) <:+: m) ∧
      ¬ (("closed".toList) <:+: m) ∧
      ¬ (("❌".toList) <:+: m) :=
  pr_merged_message_markers ("closed stuff".toList) 2 ("u".toList) ("org".toList)
    ("alice".toList)

/-- The nested fields an `issue` object may carry. -/
structure IssueFields where
  title : Option (List Char)
  number : Option Int
  html_url : Option (List Char)

/-- The nested fields a `pull_request` object may carry. -/
structure PRFields where
  title : Option (List Char)
  number : Option Int
  html_url : Option (List Char)
  merged : Option Bool

/-- An issues payload where every field — the action, the whole `issue`
object, each of its nested fields, the `repository`/`sender` objects and
their nested fields — may independently be missing. -/
def mkIssuesPayload (action : Option (List Char)) (issue : Option IssueFields)
    (repo sender : Option (Option (List Char))) : PyVal :=
  .dict (optEntry ("action".toList) (action.map (.str ·)) ++
         optEntry ("issue".toList) (issue.map fun f =>
           .dict (optEntry ("title".toList) (f.title.map (.str ·)) ++
                  optEntry ("number".toList) (f.number.map (.int ·)) ++
                  optEntry ("html_url".toList) (f.html_url.map (.str ·)))) ++
         optEntry ("repository".toList) (repo.map fun r =>
           .dict (optEntry ("full_name".toList) (r.map (.str ·)))) ++
         optEntry ("sender".toList) (sender.map fun s =>
           .dict (optEntry ("login".toList) (s.map (.str ·)))))

/-- A pull_request payload with every field independently missing. -/
def mkPRPayloadOpt (action : Option (List Char)) (pr : Option PRFields)
    (repo sender : Option (Option (List Char))) : PyVal :=
  .dict (optEntry ("action".toList) (action.map (.str ·)) ++
         optEntry ("pull_request".toList) (pr.map fun f =>
           .dict (optEntry ("title".toList) (f.title.map (.str ·)) ++
                  optEntry ("number".toList) (f.number.map (.int ·)) ++
                  optEntry ("html_url".toList) (f.html_url.map (.str ·)) ++
                  optEntry ("merged".toList) (f.merged.map (.bool ·)))) ++
         optEntry ("repository".toList) (repo.map fun r =>
           .dict (optEntry ("full_name".toList) (r.map (.str ·)))) ++
         optEntry ("sender".toList) (sender.map fun s =>
           .dict (optEntry ("login".toList) (s.map (.str ·)))))

/-- The action string the handler sees (`payload.get("action", "unknown")`). -/
def actionStr (action : Option (List Char)) : List Char :=
  match action with
  | some a => a
  | Option.none => "unknown".toList

/-- A two-level field: object missing, or object present without the
key, both default. -/
def field2 (o : Option (Option (List Char))) (d : List Char) : List Char :=
  match o with
  | some (some s) => s
  | some Option.none => d
  | Option.none => d

/-- The interpolation of the `number` field: an integer renders decimal,
a missing number defaults to the empty string. -/
def optNumStr (n : Option Int) : List Char :=
  match n with
  | some k => k.repr.toList
  | Option.none => []

/-- The value `pr.get("merged")` yields. -/
def prMergedV (pr : Option PRFields) : PyVal :=
  match pr.bind PRFields.merged with
  | some b => .bool b
  | Option.none => .none

/-- Full evaluation of `handle_issues_event` on any combination of
present/missing fields. -/
theorem handle_issues_event_mk (action : Option (List Char))
    (issue : Option IssueFields) (repo sender : Option (Option (List Char))) :
    handle_issues_event (mkIssuesPayload action issue repo sender) =
      .ok (emojiGet issues_emoji_map (.str (actionStr action)) ("📋".toList) ++
        (" *Issue ".toList) ++ actionStr action ++ ("* in ".toList) ++
        field2 repo ("Unknown".toList) ++ ("\n#".toList) ++
        optNumStr (issue.bind IssueFields.number) ++ (": [".toList) ++
        ((issue.bind IssueFields.title).getD ("Unknown".toList)) ++ ("](".toList) ++
        ((issue.bind IssueFields.html_url).getD []) ++ (")\nby `".toList) ++
        field2 sender ("Unknown".toList) ++ ['`']) := by
  rcases action with - | a <;>
    rcases issue with - | ⟨- | t, - | n, - | u⟩ <;>
    rcases repo with - | (- | r) <;>
    rcases sender with - | (- | s) <;>
    rfl

/-- Full evaluation of `handle_pull_request_event` on any combination of
present/missing fields. -/
theorem handle_pull_request_event_mk (action : Option (List Char))
    (pr : Option PRFields) (repo sender : Option (Option (List Char))) :
    handle_pull_request_event (mkPRPayloadOpt action pr repo sender) =
      (if (actionStr action == "closed".toList) && pyTruthy (prMergedV pr) then
        .ok (pyReplace (pyReplace
          (emojiGet (pr_emoji_map (prMergedV pr)) (.str (actionStr action)) ("🔀".toList) ++
            (" *PR ".toList) ++ actionStr action ++ ("* in ".toList) ++
            field2 repo ("Unknown".toList) ++ ("\n#".toList) ++
            optNumStr (pr.bind PRFields.number) ++ (": [".toList) ++
            ((pr.bind PRFields.title).getD ("Unknown".toList)) ++ ("](".toList) ++
            ((pr.bind PRFields.html_url).getD []) ++ (")\nby `".toList) ++
            field2 sender ("Unknown".toList) ++ ['`'])
          ("closed".toList) ("merged".toList)) ("❌".toList) ("🎉".toList))
      else
        .ok (emojiGet (pr_emoji_map (prMergedV pr)) (.str (actionStr action)) ("🔀".toList) ++
          (" *PR ".toList) ++ actionStr action ++ ("* in ".toList) ++
          field2 repo ("Unknown".toList) ++ ("\n#".toList) ++
          optNumStr (pr.bind PRFields.number) ++ (": [".toList) ++
          ((pr.bind PRFields.title).getD ("Unknown".toList)) ++ ("](".toList) ++
          ((pr.bind PRFields.html_url).getD []) ++ (")\nby `".toList) ++
          field2 sender ("Unknown".toList) ++ ['`'])) := by
  rcases action with - | a <;>
    rcases pr with - | ⟨- | t, - | n, - | u, - | mg⟩ <;>
    rcases repo with - | (- | r) <;>
    rcases sender with - | (- | s) <;>
    rfl

/-- A key that is not among a table's keys looks up to `none`. -/
theorem lookup_none_of_not_mem_keys (table : List (List Char × List Char))
    (a : List Char) (h : a ∉ table.map Prod.fst) :
    table.lookup a = Option.none := by
  induction table with
  | nil => rfl
  | cons p rest ih =>
      obtain ⟨k, v⟩ := p
      simp only [List.map_cons, List.mem_cons] at h
      push_neg at h
      have hk : (a == k) = false := beq_eq_false_iff_ne.mpr h.1
      simp [List.lookup, hk, ih h.2]

/-- An action outside the table gets the default marker. -/
theorem emojiGet_default (table : List (List Char × List Char))
    (a d : List Char) (h : a ∉ table.map Prod.fst) :
    emojiGet table (.str a) d = d := by
  show (match table.lookup a with | some e => e | none => d) = d
  rw [lookup_none_of_not_mem_keys table a h]

/-- **C8.** For every issues or pull_request payload, formatting is total
(never raises) no matter which nested fields are missing; missing string
fields default to `Unknown`, a missing number renders empty; and for every
action string not in the fixed lookup table the default marker symbol
(📋 for issues, 🔀 for pull requests) is used. -/
theorem issues_pr_formatting_total (a : List Char)
    (hI : a ∉ issues_emoji_map.map Prod.fst)
    (hP : a ∉ ["opened".toList, "closed".toList, "reopened".toList,
               "merged".toList, "ready_for_review".toList,
               "review_requested".toList]) :
    (∀ (action : Option (List Char)) (issue : Option IssueFields)
       (repo sender : Option (Option (List Char))),
       ∃ m, handle_issues_event (mkIssuesPayload action issue repo sender) = .ok m) ∧
    (∀ (action : Option (List Char)) (pr : Option PRFields)
       (repo sender : Option (Option (List Char))),
       ∃ m, handle_pull_request_event (mkPRPayloadOpt action pr repo sender) = .ok m) ∧
    (∀ (issue : Option IssueFields) (repo sender : Option (Option (List Char))),
       handle_issues_event (mkIssuesPayload (some a) issue repo sender) =
         .ok (("📋 *Issue ".toList) ++ a ++ ("* in ".toList) ++
           field2 repo ("Unknown".toList) ++ ("\n#".toList) ++
           optNumStr (issue.bind IssueFields.number) ++ (": [".toList) ++
           ((issue.bind IssueFields.title).getD ("Unknown".toList)) ++ ("](".toList) ++
           ((issue.bind IssueFields.html_url).getD []) ++ (")\nby `".toList) ++
           field2 sender ("Unknown".toList) ++ ['`'])) ∧
    (∀ (pr : Option PRFields) (repo sender : Option (Option (List Char))),
       handle_pull_request_event (mkPRPayloadOpt (some a) pr repo sender) =
         .ok (("🔀 *PR ".toList) ++ a ++ ("* in ".toList) ++
           field2 repo ("Unknown".toList) ++ ("\n#".toList) ++
           optNumStr (pr.bind PRFields.number) ++ (": [".toList) ++
           ((pr.bind PRFields.title).getD ("Unknown".toList)) ++ ("](".toList) ++
           ((pr.bind PRFields.html_url).getD []) ++ (")\nby `".toList) ++
           field2 sender ("Unknown".toList) ++ ['`'])) := by
  refine ⟨fun action issue repo sender =>
      ⟨_, handle_issues_event_mk action issue repo sender⟩,
    fun action pr repo sender => ?_, fun issue repo sender => ?_,
    fun pr repo sender => ?_⟩
  · rw [handle_pull_request_event_mk action pr repo sender]
    by_cases hc : (actionStr action == "closed".toList) && pyTruthy (prMergedV pr)
    · rw [if_pos hc]
      exact ⟨_, rfl⟩
    · rw [if_neg hc]
      exact ⟨_, rfl⟩
  · rw [handle_issues_event_mk (some a) issue repo sender]
    simp only [actionStr]
    rw [emojiGet_default issues_emoji_map a _ hI]
    rfl
  · rw [handle_pull_request_event_mk (some a) pr repo sender]
    simp only [actionStr]
    have hac : (a == "closed".toList) = false := beq_eq_false_iff_ne.mpr (by
      intro he
      exact hP (by rw [he]; simp))
    rw [hac]
    simp only [Bool.false_and]
    rw [if_neg (by simp)]
    have hkeys : (pr_emoji_map (prMergedV pr)).map Prod.fst =
        ["opened".toList, "closed".toList, "reopened".toList, "merged".toList,
         "ready_for_review".toList, "review_requested".toList] := rfl
    rw [emojiGet_default (pr_emoji_map (prMergedV pr)) a _ (by
      intro hmem
      rw [hkeys] at hmem
      exact hP hmem)]
    rfl

/-- Witness for **C8** at the action string `"banana"`. -/
theorem issues_pr_formatting_total_witness :
    (∀ (action : Option (List Char)) (issue : Option IssueFields)
       (repo sender : Option (Option (List Char))),
       ∃ m, handle_issues_event (mkIssuesPayload action issue repo sender) = .ok m) ∧
    (∀ (action : Option (List Char)) (pr : Option PRFields)
       (repo sender : Option (Option (List Char))),
       ∃ m, handle_pull_request_event (mkPRPayloadOpt action pr repo sender) = .ok m) ∧
    (∀ (issue : Option IssueFields) (repo sender : Option (Option (List Char))),
       handle_issues_event (mkIssuesPayload (some ("banana".toList)) issue repo sender) =
         .ok (("📋 *Issue ".toList) ++ ("banana".toList) ++ ("* in ".toList) ++
           field2 repo ("Unknown".toList) ++ ("\n#".toList) ++
           optNumStr (issue.bind IssueFields.number) ++ (": [".toList) ++
           ((issue.bind IssueFields.title).getD ("Unknown".toList)) ++ ("](".toList) ++
           ((issue.bind IssueFields.html_url).getD []) ++ (")\nby `".toList) ++
           field2 sender ("Unknown".toList) ++ ['`'])) ∧
    (∀ (pr : Option PRFields) (repo sender : Option (Option (List Char))),
       handle_pull_request_event (mkPRPayloadOpt (some ("banana".toList)) pr repo sender) =
         .ok (("🔀 *PR ".toList) ++ ("banana".toList) ++ ("* in ".toList) ++
           field2 repo ("Unknown".toList) ++ ("\n#".toList) ++
           optNumStr (pr.bind PRFields.number) ++ (": [".toList) ++
           ((pr.bind PRFields.title).getD ("Unknown".toList)) ++ ("](".toList) ++
           ((pr.bind PRFields.html_url).getD []) ++ (")\nby `".toList) ++
           field2 sender ("Unknown".toList) ++ ['`'])) :=
  issues_pr_formatting_total ("banana".toList) (by decide) (by decide)

end GitWebhook
